import Mathlib

/-!
# EasyLang interpreter: a shallow embedding in Lean 4

This file embeds the EasyLang interpreter (a C program shipped in two
revisions, `easylang.c` and `easylang_version2.0.c`) and proves properties
of its lexer, parser, environment model and evaluator.

Modelling conventions:
* The C source buffer (a NUL-terminated byte string) is a `List Char`;
  `peekc` yields the NUL character past the end, matching C's terminator.
* C `double` values are modelled as exact fractions (`Q`).  All
  arithmetic exercised by the theorems below is exact in both
  representations; places where IEEE-754 behaviour genuinely differs
  (infinity from division by zero, NaN from `fmod` by zero) are noted at
  the definition site, and no theorem relies on the numeric value
  produced there.
* Loops in the C code are modelled by structural recursion on an explicit
  fuel parameter; `none` / a dedicated error signals fuel exhaustion.
  Fuel-sufficiency is proved where a claim concerns termination.
* `exit(1)` with a diagnostic is modelled as `Except.error` carrying a
  constructor of `RtError` identifying the diagnostic.
-/

namespace EasyLang

/-! ## Character classification (C `ctype.h`, "C" locale) -/

/-- C `isdigit`. -/
def isDigitC (c : Char) : Bool := '0' ≤ c && c ≤ '9'

/-- C `isalpha` in the "C" locale. -/
def isAlphaC (c : Char) : Bool := ('a' ≤ c && c ≤ 'z') || ('A' ≤ c && c ≤ 'Z')

/-- C `isalnum` in the "C" locale. -/
def isAlnumC (c : Char) : Bool := isAlphaC c || isDigitC c

/-- C `tolower` in the "C" locale. -/
def tolowerC (c : Char) : Char :=
  if 'A' ≤ c && c ≤ 'Z' then Char.ofNat (c.toNat + 32) else c

/-- The NUL character, C's string terminator. -/
def nulChar : Char := Char.ofNat 0

/-! ## Lexical tokens (`TokenType`, `Token`)

The token enumeration of `easylang_version2.0.c`; the first revision's
enumeration is the subset without `T_FUNCTION`, `T_RETURN`, `T_LBRACE`,
`T_RBRACE`, `T_COMMA`, and its lexer never produces those values. -/

inductive TokenType where
  | T_EOF | T_IDENTIFIER | T_NUMBER | T_STRING
  | T_SET | T_PRINT | T_READ | T_IF | T_THEN | T_END | T_WHILE | T_DO | T_TO
  | T_PLUS | T_MINUS | T_MUL | T_DIV | T_MOD
  | T_LPAREN | T_RPAREN
  | T_EQ | T_NEQ | T_GT | T_LT | T_LE | T_GE
  | T_AND
  | T_DOT | T_NEWLINE
  | T_FUNCTION | T_RETURN
  | T_LBRACE | T_RBRACE | T_COMMA
  | T_UNKNOWN
deriving DecidableEq, Repr

/-- A token: a kind and, for identifiers/numbers/strings, a lexeme. -/
structure Token where
  type : TokenType
  text : Option String
deriving DecidableEq, Repr

/-- Lexer state: source buffer, cursor, line counter (`struct Lexer`). -/
structure Lexer where
  src : List Char
  pos : Nat
  line : Nat
deriving DecidableEq, Repr

/-- `peekc`: the character at the cursor, NUL at or past the end. -/
def peekc (lx : Lexer) : Char := lx.src.getD lx.pos nulChar

/-- `getc_l`: consume one character; the cursor advances unless the
character is NUL, and the line counter advances on a line feed. -/
def getcL (lx : Lexer) : Char × Lexer :=
  let c := peekc lx
  (c, { lx with pos := if c ≠ nulChar then lx.pos + 1 else lx.pos,
                line := if c = '\n' then lx.line + 1 else lx.line })

/-- The body of the comment-skipping loop
`while (peekc(lx) != '\0' && getc_l(lx) != '\n') {}`. -/
def commentLoopF : Nat → Lexer → Option Lexer
  | 0, _ => none
  | fuel+1, lx =>
    if peekc lx = nulChar then some lx
    else if (getcL lx).1 = '\n' then some (getcL lx).2
    else commentLoopF fuel (getcL lx).2

/-- The character class consumed by `lex_ident_or_number`'s scan loop:
alphanumerics, underscore and dot. -/
def isIdentNumChar (c : Char) : Bool := isAlnumC c || c = '_' || c = '.'

/-- The scan loop of `lex_ident_or_number`. -/
def identNumLoopF : Nat → Lexer → Option Lexer
  | 0, _ => none
  | fuel+1, lx =>
    if isIdentNumChar (peekc lx) then identNumLoopF fuel (getcL lx).2
    else some lx

/-- The scan loop of `lex_string`: consume until an unescaped quote or the
end of input; a backslash consumes the following character verbatim. -/
def stringLoopF : Nat → Lexer → Option Lexer
  | 0, _ => none
  | fuel+1, lx =>
    if peekc lx ≠ nulChar ∧ peekc lx ≠ '"' then
      if peekc lx = '\\' then
        let lx1 := (getcL lx).2
        let lx2 := if peekc lx1 ≠ nulChar then (getcL lx1).2 else lx1
        stringLoopF fuel lx2
      else stringLoopF fuel (getcL lx).2
    else some lx

/-- `substr_alloc`: the substring `[a, b)` of the source buffer. -/
def substrS (src : List Char) (a b : Nat) : String := ⟨(src.drop a).take (b - a)⟩

/-- `lex_string`: skip the opening quote, scan the body, skip a closing
quote when present, and emit a `T_STRING` token with the raw body. -/
def lexStringF (fuel : Nat) (lx : Lexer) : Option (Token × Lexer) :=
  match stringLoopF fuel (getcL lx).2 with
  | none => none
  | some lx1 =>
    some (⟨.T_STRING, some (substrS lx.src ((getcL lx).2).pos lx1.pos)⟩,
      if peekc lx1 = '"' then (getcL lx1).2 else lx1)

/-- The numeric scan of `lex_ident_or_number`: `numeric` starts true and is
cleared by a second dot or by any character that is neither a digit nor a
dot. -/
def numericScan : List Char → Nat → Bool → Bool
  | [], _, numeric => numeric
  | c :: rest, dots, numeric =>
    if c = '.' then
      numericScan rest (dots + 1) (if dots + 1 > 1 then false else numeric)
    else if isDigitC c then numericScan rest dots numeric
    else numericScan rest dots false

/-- `lex_ident_or_number`: scan a run of alphanumerics/underscores/dots; if
the numeric scan accepts it the lexeme is a `T_NUMBER`, otherwise it is
lowercased and emitted as `T_IDENTIFIER`. -/
def lexIdentOrNumberF (fuel : Nat) (lx : Lexer) : Option (Token × Lexer) :=
  match identNumLoopF fuel lx with
  | none => none
  | some lx1 =>
    let s := (lx.src.drop lx.pos).take (lx1.pos - lx.pos)
    if numericScan s 0 true then some (⟨.T_NUMBER, some ⟨s⟩⟩, lx1)
    else some (⟨.T_IDENTIFIER, some ⟨s.map tolowerC⟩⟩, lx1)

/-- The keyword table of `next_token` in `easylang_version2.0.c`, in the
order of its `strcmp` chain. -/
def keywordList : List (String × TokenType) :=
  [("set", .T_SET), ("print", .T_PRINT), ("read", .T_READ), ("if", .T_IF),
   ("then", .T_THEN), ("end", .T_END), ("while", .T_WHILE), ("do", .T_DO),
   ("to", .T_TO), ("and", .T_AND), ("function", .T_FUNCTION), ("return", .T_RETURN)]

/-- Keyword mapping applied by `next_token` of `easylang_version2.0.c` to
identifier lexemes: the first-match `strcmp` chain as a table lookup. -/
def keywordTok (s : String) : Option TokenType :=
  (keywordList.find? (fun p => p.1 = s)).map (fun p => p.2)

/-- The keyword table of the first revision `easylang.c` (no `function`,
no `return`). -/
def keywordListV1 : List (String × TokenType) :=
  [("set", .T_SET), ("print", .T_PRINT), ("read", .T_READ), ("if", .T_IF),
   ("then", .T_THEN), ("end", .T_END), ("while", .T_WHILE), ("do", .T_DO),
   ("to", .T_TO), ("and", .T_AND)]

/-- Keyword mapping of the first revision. -/
def keywordTokV1 (s : String) : Option TokenType :=
  (keywordListV1.find? (fun p => p.1 = s)).map (fun p => p.2)

/-- The leading whitespace/newline/comment loop of `next_token`, shared by
both revisions: it either produces a `T_NEWLINE` token (`Sum.inl`) or
stops at a significant character (`Sum.inr`). -/
def ntSkipF : Nat → Lexer → Option ((Token × Lexer) ⊕ Lexer)
  | 0, _ => none
  | fuel+1, lx =>
    let c := peekc lx
    if c = nulChar then some (.inr lx)
    else if c = ' ' ∨ c = '\t' then ntSkipF fuel (getcL lx).2
    else if c = '\r' then
      let lx1 := (getcL lx).2
      if peekc lx1 = '\n' then some (.inl (⟨.T_NEWLINE, none⟩, (getcL lx1).2))
      else some (.inl (⟨.T_NEWLINE, none⟩, lx1))
    else if c = '\n' then some (.inl (⟨.T_NEWLINE, none⟩, (getcL lx).2))
    else if c = '#' then
      match commentLoopF (fuel+1) lx with
      | none => none
      | some r => ntSkipF fuel r
    else some (.inr lx)

/-- Apply the keyword table to the result of `lex_ident_or_number`, as
`next_token` does on the alphabetic entry path. -/
def applyKeywords (kw : String → Option TokenType) (t : Token) (lx : Lexer) :
    Token × Lexer :=
  match t.type, t.text with
  | .T_IDENTIFIER, some s =>
    match kw s with
    | some k => (⟨k, none⟩, lx)
    | none => (t, lx)
  | _, _ => (t, lx)

/-- `next_token` of `easylang_version2.0.c`.  Note the dispatch order: the
branch for `isdigit(c) || c == '.'` precedes the literal `'.'` branch, so
the latter (emitting `T_DOT`) is dead code, kept here for fidelity. -/
def nextTokenF (fuel : Nat) (lx0 : Lexer) : Option (Token × Lexer) :=
  match ntSkipF fuel lx0 with
  | none => none
  | some (.inl res) => some res
  | some (.inr lx) =>
    let c := peekc lx
    if c = nulChar then some (⟨.T_EOF, none⟩, lx)
    else if c = '"' then lexStringF fuel lx
    else if isAlphaC c ∨ c = '_' then
      match lexIdentOrNumberF fuel lx with
      | none => none
      | some (t, lx') => some (applyKeywords keywordTok t lx')
    else if isDigitC c ∨ c = '.' then lexIdentOrNumberF fuel lx
    else if c = '.' then some (⟨.T_DOT, none⟩, (getcL lx).2)
    else if c = '(' then some (⟨.T_LPAREN, none⟩, (getcL lx).2)
    else if c = ')' then some (⟨.T_RPAREN, none⟩, (getcL lx).2)
    else if c = '{' then some (⟨.T_LBRACE, none⟩, (getcL lx).2)
    else if c = '}' then some (⟨.T_RBRACE, none⟩, (getcL lx).2)
    else if c = ',' then some (⟨.T_COMMA, none⟩, (getcL lx).2)
    else if c = '+' then some (⟨.T_PLUS, none⟩, (getcL lx).2)
    else if c = '-' then some (⟨.T_MINUS, none⟩, (getcL lx).2)
    else if c = '*' then some (⟨.T_MUL, none⟩, (getcL lx).2)
    else if c = '/' then some (⟨.T_DIV, none⟩, (getcL lx).2)
    else if c = '%' then some (⟨.T_MOD, none⟩, (getcL lx).2)
    else if c = '<' then
      let lx1 := (getcL lx).2
      if peekc lx1 = '=' then some (⟨.T_LE, none⟩, (getcL lx1).2)
      else some (⟨.T_LT, none⟩, lx1)
    else if c = '>' then
      let lx1 := (getcL lx).2
      if peekc lx1 = '=' then some (⟨.T_GE, none⟩, (getcL lx1).2)
      else some (⟨.T_GT, none⟩, lx1)
    else if c = '=' then
      let lx1 := (getcL lx).2
      if peekc lx1 = '=' then some (⟨.T_EQ, none⟩, (getcL lx1).2)
      else
        let lx2 : Lexer := { lx1 with pos := lx1.pos - 1 }
        some (⟨.T_UNKNOWN, none⟩, (getcL lx2).2)
    else if c = '!' then
      let lx1 := (getcL lx).2
      if peekc lx1 = '=' then some (⟨.T_NEQ, none⟩, (getcL lx1).2)
      else
        let lx2 : Lexer := { lx1 with pos := lx1.pos - 1 }
        some (⟨.T_UNKNOWN, none⟩, (getcL lx2).2)
    else some (⟨.T_UNKNOWN, none⟩, (getcL lx).2)

/-- `next_token` of the first revision `easylang.c`: same skip loop and
scanners, a keyword table without `function`/`return`, and no cases for
`{`, `}`, `,` (those characters fall through to `T_UNKNOWN`). The dead
`T_DOT` branch is likewise preceded by the digit-or-dot branch. -/
def nextTokenV1F (fuel : Nat) (lx0 : Lexer) : Option (Token × Lexer) :=
  match ntSkipF fuel lx0 with
  | none => none
  | some (.inl res) => some res
  | some (.inr lx) =>
    let c := peekc lx
    if c = nulChar then some (⟨.T_EOF, none⟩, lx)
    else if c = '"' then lexStringF fuel lx
    else if isAlphaC c ∨ c = '_' then
      match lexIdentOrNumberF fuel lx with
      | none => none
      | some (t, lx') => some (applyKeywords keywordTokV1 t lx')
    else if isDigitC c ∨ c = '.' then lexIdentOrNumberF fuel lx
    else if c = '.' then some (⟨.T_DOT, none⟩, (getcL lx).2)
    else if c = '(' then some (⟨.T_LPAREN, none⟩, (getcL lx).2)
    else if c = ')' then some (⟨.T_RPAREN, none⟩, (getcL lx).2)
    else if c = '+' then some (⟨.T_PLUS, none⟩, (getcL lx).2)
    else if c = '-' then some (⟨.T_MINUS, none⟩, (getcL lx).2)
    else if c = '*' then some (⟨.T_MUL, none⟩, (getcL lx).2)
    else if c = '/' then some (⟨.T_DIV, none⟩, (getcL lx).2)
    else if c = '%' then some (⟨.T_MOD, none⟩, (getcL lx).2)
    else if c = '<' then
      let lx1 := (getcL lx).2
      if peekc lx1 = '=' then some (⟨.T_LE, none⟩, (getcL lx1).2)
      else some (⟨.T_LT, none⟩, lx1)
    else if c = '>' then
      let lx1 := (getcL lx).2
      if peekc lx1 = '=' then some (⟨.T_GE, none⟩, (getcL lx1).2)
      else some (⟨.T_GT, none⟩, lx1)
    else if c = '=' then
      let lx1 := (getcL lx).2
      if peekc lx1 = '=' then some (⟨.T_EQ, none⟩, (getcL lx1).2)
      else
        let lx2 : Lexer := { lx1 with pos := lx1.pos - 1 }
        some (⟨.T_UNKNOWN, none⟩, (getcL lx2).2)
    else if c = '!' then
      let lx1 := (getcL lx).2
      if peekc lx1 = '=' then some (⟨.T_NEQ, none⟩, (getcL lx1).2)
      else
        let lx2 : Lexer := { lx1 with pos := lx1.pos - 1 }
        some (⟨.T_UNKNOWN, none⟩, (getcL lx2).2)
    else some (⟨.T_UNKNOWN, none⟩, (getcL lx).2)

/-- One `next_token` call (second revision), with the fuel of its internal
loops fixed at a provably sufficient bound. -/
def nextToken (lx : Lexer) : Option (Token × Lexer) :=
  nextTokenF (lx.src.length + 1) lx

/-- One `next_token` call of the first revision. -/
def nextTokenV1 (lx : Lexer) : Option (Token × Lexer) :=
  nextTokenV1F (lx.src.length + 1) lx

/-- Repeated `next_token` calls until `T_EOF` (how the parser, and `main`,
drain the lexer); the `T_EOF` token itself ends the stream. -/
def tokenizeF : Nat → Lexer → Option (List Token)
  | 0, _ => none
  | fuel+1, lx =>
    match nextToken lx with
    | none => none
    | some (t, lx') =>
      if t.type = .T_EOF then some [t]
      else
        match tokenizeF fuel lx' with
        | none => none
        | some rest => some (t :: rest)

/-- The token stream of a source text (second revision's lexer). -/
def tokenize (src : List Char) : Option (List Token) :=
  tokenizeF (src.length + 1) ⟨src, 0, 1⟩

/-! ## Values

C `double` values are modelled as exact fractions: an integer numerator
over a positive natural denominator, not reduced (the kernel cannot
evaluate Mathlib's normalized `ℚ` arithmetic, whose gcd is well-founded
recursion).  Every arithmetic step a theorem in this file evaluates is
exact in both this representation and IEEE-754 doubles; the places where
IEEE behaviour genuinely differs (infinity from division by zero, NaN
from `fmod` by zero) are flagged at the definition site and no theorem
relies on the numeric result there. -/

/-- An exact fraction `num / den`.  Every constructor used keeps
`den ≠ 0`. -/
structure Q where
  num : ℤ
  den : ℕ
deriving DecidableEq, Repr

/-- Embed an integer. -/
def Q.ofInt (n : ℤ) : Q := ⟨n, 1⟩

/-- The zero double. -/
def Q.zero : Q := ⟨0, 1⟩

/-- Addition of doubles. -/
def Q.add (a b : Q) : Q := ⟨a.num * b.den + b.num * a.den, a.den * b.den⟩

/-- Subtraction of doubles. -/
def Q.sub (a b : Q) : Q := ⟨a.num * b.den - b.num * a.den, a.den * b.den⟩

/-- Multiplication of doubles. -/
def Q.mul (a b : Q) : Q := ⟨a.num * b.num, a.den * b.den⟩

/-- Division of doubles.  When the divisor is zero, C produces an IEEE
infinity or NaN, which this representation cannot express; the junk
value `0` stands in and no theorem relies on it. -/
def Q.div (a b : Q) : Q :=
  if b.num = 0 then ⟨0, 1⟩
  else if 0 ≤ b.num then ⟨a.num * b.den, a.den * b.num.toNat⟩
  else ⟨-(a.num * b.den), a.den * (-b.num).toNat⟩

/-- Value equality of doubles (`==` on `double`). -/
def Q.eqB (a b : Q) : Bool := a.num * (b.den : ℤ) == b.num * (a.den : ℤ)

/-- Strict order on doubles (`<`). -/
def Q.ltB (a b : Q) : Bool := decide (a.num * (b.den : ℤ) < b.num * (a.den : ℤ))

/-- Order on doubles (`<=`). -/
def Q.leB (a b : Q) : Bool := decide (a.num * (b.den : ℤ) ≤ b.num * (a.den : ℤ))

/-- Truncation toward zero (C cast/`fmod` semantics); `Int` division
truncates toward zero. -/
def Q.trunc (a : Q) : ℤ := a.num / (a.den : ℤ)

/-- Whether the double is zero (`x == 0.0`). -/
def Q.isZero (a : Q) : Bool := a.num == 0

/-- The interpreter's value type (`VAL_NUM` / `VAL_STR` / `VAL_NONE`). -/
inductive Value where
  | vnum (n : Q)
  | vstr (s : String)
  | vnone
deriving DecidableEq, Repr

/-- Whether a value carries the `VAL_STR` tag. -/
def Value.isStr : Value → Bool
  | .vstr _ => true
  | _ => false

/-- Whether a value carries the `VAL_NUM` tag. -/
def Value.isNum : Value → Bool
  | .vnum _ => true
  | _ => false

/-- The `num` field of a C `Value`: meaningful for `VAL_NUM`, and `0` for
every `VAL_NONE` the program constructs (all its initializers zero it). -/
def Value.numField : Value → Q
  | .vnum q => q
  | _ => Q.zero

/-! ## `%g` formatting

`printf("%g", x)`: six significant digits, trailing zeros removed, fixed
notation when the decimal exponent is in `[-4, 6)` and scientific
notation otherwise.  (C rounds the binary double to decimal with the
current rounding mode; on the exact fractions used here we round to
nearest, which agrees on every value any theorem evaluates.) -/

/-- Floor of the base-10 logarithm of a natural number (0 for inputs
below 10), by repeated division. -/
def natLog10F : Nat → Nat → Nat
  | 0, _ => 0
  | fuel+1, n => if n < 10 then 0 else natLog10F fuel (n / 10) + 1

/-- `natLog10F` with enough fuel. -/
def natLog10 (n : Nat) : Nat := natLog10F n n

/-- Round the (positive) fraction `p / q` to the nearest integer, halves
up: `⌊p/q + 1/2⌋` as a floor division. -/
def fracRound (p q : ℕ) : ℕ := (2 * p + q) / (2 * q)

/-- Greatest `e` with `10^e ≤ p / q`, for `1 ≤ p`, `1 ≤ q`. -/
def fracLog10 (p q : ℕ) : ℤ :=
  if q ≤ p then (natLog10 (p / q) : ℤ)
  else
    let k0 := natLog10 (q / p)
    if q ≤ p * 10 ^ k0 then (-(k0 : ℤ)) else (-(k0 + 1 : ℤ))

/-- Drop trailing `'0'` characters. -/
def stripZeros (l : List Char) : List Char :=
  (l.reverse.dropWhile (fun c => c = '0')).reverse

/-- `printf("%g", ·)` on the fraction model of a double. -/
def fmtG (x : Q) : String :=
  if x.num = 0 then "0"
  else
    let sign : String := if x.num < 0 then "-" else ""
    let p := x.num.natAbs
    let q := x.den
    let e0 := fracLog10 p q
    -- the first six significant decimal digits, rounded: `(p/q) * 10^(5-e0)`
    let n0 : ℕ :=
      if e0 ≤ 5 then fracRound (p * 10 ^ (5 - e0).toNat) q
      else fracRound p (q * 10 ^ (e0 - 5).toNat)
    let n : ℕ := if 10 ^ 6 ≤ n0 then 10 ^ 5 else n0
    let e : ℤ := if 10 ^ 6 ≤ n0 then e0 + 1 else e0
    let ds : List Char := (toString n).toList
    if -4 ≤ e ∧ e < 6 then
      if 0 ≤ e then
        let ip := ds.take (e.toNat + 1)
        let fp := stripZeros (ds.drop (e.toNat + 1))
        sign ++ (⟨ip⟩ : String) ++ (if fp = [] then "" else "." ++ (⟨fp⟩ : String))
      else
        let zeros := List.replicate ((-e).toNat - 1) '0'
        sign ++ "0." ++ (⟨stripZeros (zeros ++ ds)⟩ : String)
    else
      let mant : String :=
        match ds with
        | d :: rest =>
          let r := stripZeros rest
          (⟨[d]⟩ : String) ++ (if r = [] then "" else "." ++ (⟨r⟩ : String))
        | [] => "0"
      let eAbs := (if e < 0 then -e else e).toNat
      let eStr := if eAbs < 10 then "0" ++ toString eAbs else toString eAbs
      sign ++ mant ++ "e" ++ (if e < 0 then "-" else "+") ++ eStr

/-- Fold a digit run into its value, as C number parsing does. -/
def digitsToNat : List Char → Nat → Nat
  | [], acc => acc
  | c :: rest, acc => digitsToNat rest (acc * 10 + (c.toNat - '0'.toNat))

/-- `atof` on the lexeme shapes the lexer produces for `T_NUMBER` (at most
one dot, all other characters digits): integer part plus fractional part,
as the exact fraction over a power of ten.  C `atof` also accepts
signs/exponents, which never reach this call site. -/
def atofQ (s : String) : Q :=
  let l := s.toList
  let ip := l.takeWhile isDigitC
  let rest := l.dropWhile isDigitC
  let fp := match rest with
    | '.' :: r => r.takeWhile isDigitC
    | _ => []
  ⟨(digitsToNat ip 0 : ℤ) * 10 ^ fp.length + digitsToNat fp 0, 10 ^ fp.length⟩

/-! ## AST -/

/-- AST nodes (`struct Node`), with the C `next`-linked statement chain of
`N_STMT_LIST` modelled as a list and the nullable `else`/`return`
children as `Option`. The binary operator is the token type the parser
stores in the `number` field. -/
inductive Node where
  | stmtList (stmts : List Node)
  | stmtSet (name : String) (body : Node)
  | stmtPrint (body : Node)
  | stmtRead (name : String)
  | stmtIf (cond : Node) (body : Node) (elseBody : Option Node)
  | stmtWhile (cond : Node) (body : Node)
  | stmtFuncDef (name : String) (params : List String) (body : Node)
  | stmtReturn (body : Option Node)
  | exprBinary (op : TokenType) (left : Node) (right : Node)
  | exprNumber (n : Q)
  | exprString (s : String)
  | exprVar (name : String)
  | exprCall (name : String) (args : List Node)
deriving Repr

/-! ## Errors

Each constructor stands for one `exit(1)` diagnostic; `fuelOut` marks
exhaustion of the explicit fuel (no C counterpart: it bounds the model of
a potentially diverging run). -/

inductive Err where
  | parseError (line : Nat) (msg : String)
  | undefVar (name : String)
  | undefFunc (name : String)
  | arityMismatch (name : String)
  | nonNumeric
  | condNotNumeric
  | divisionByZero
  | dupFunc (name : String)
  | inputError
  | fuelOut
deriving DecidableEq, Repr

/-! ## Parser (second revision) -/

/-- Parser state: the lexer plus one lookahead token. -/
structure Parser where
  lx : Lexer
  cur : Token

/-- `advance`: fetch the next token into the lookahead. -/
def advanceP (p : Parser) : Except Err Parser :=
  match nextToken p.lx with
  | some (t, lx') => .ok ⟨lx', t⟩
  | none => .error .fuelOut

/-- `expect`: require a token kind and consume it. -/
def expectP (p : Parser) (t : TokenType) (msg : String) : Except Err Parser :=
  if p.cur.type = t then advanceP p
  else .error (.parseError p.lx.line ("expected " ++ msg))

/-- `expect_stmt_terminator` (second revision): a literal `.` or newline is
consumed; statement keywords, `end`, `}`, EOF and the identifier `else`
terminate implicitly; anything else is a parse error. -/
def expectStmtTerminator (p : Parser) : Except Err Parser :=
  let t := p.cur
  if t.type = .T_DOT ∨ t.type = .T_NEWLINE then advanceP p
  else if t.type = .T_SET ∨ t.type = .T_PRINT ∨ t.type = .T_READ ∨ t.type = .T_IF ∨
          t.type = .T_WHILE ∨ t.type = .T_END ∨ t.type = .T_EOF ∨ t.type = .T_FUNCTION ∨
          t.type = .T_RETURN ∨ t.type = .T_RBRACE ∨
          (t.type = .T_IDENTIFIER ∧ t.text = some "else") then .ok p
  else .error (.parseError p.lx.line "expected terminator")

mutual

/-- `parse_factor`. -/
def parseFactor : Nat → Parser → Except Err (Node × Parser)
  | 0, _ => .error .fuelOut
  | fuel+1, p =>
    let tk := p.cur
    if tk.type = .T_NUMBER then do
      let p ← advanceP p
      .ok (.exprNumber (atofQ (tk.text.getD "")), p)
    else if tk.type = .T_STRING then do
      let p ← advanceP p
      .ok (.exprString (tk.text.getD ""), p)
    else if tk.type = .T_IDENTIFIER then do
      let name := tk.text.getD ""
      let p ← advanceP p
      if p.cur.type = .T_LPAREN then do
        let p ← advanceP p
        if p.cur.type = .T_RPAREN then do
          let p ← expectP p .T_RPAREN ")"
          .ok (.exprCall name [], p)
        else do
          let (a, p) ← parseExpression fuel p
          let (args, p) ← parseArgsLoop fuel [a] p
          let p ← expectP p .T_RPAREN ")"
          .ok (.exprCall name args, p)
      else .ok (.exprVar name, p)
    else if tk.type = .T_LPAREN then do
      let p ← advanceP p
      let (n, p) ← parseExpression fuel p
      let p ← expectP p .T_RPAREN ")"
      .ok (n, p)
    else if tk.type = .T_MINUS then do
      let p ← advanceP p
      let (right, p) ← parseFactor fuel p
      .ok (.exprBinary .T_MINUS (.exprNumber Q.zero) right, p)
    else .error (.parseError p.lx.line "unexpected token in factor")

/-- The argument list loop of a call in `parse_factor`. -/
def parseArgsLoop : Nat → List Node → Parser → Except Err (List Node × Parser)
  | 0, _, _ => .error .fuelOut
  | fuel+1, acc, p =>
    if p.cur.type = .T_COMMA then do
      let p ← advanceP p
      let (a, p) ← parseExpression fuel p
      parseArgsLoop fuel (acc ++ [a]) p
    else .ok (acc, p)

/-- The `* / %` loop of `parse_term`. -/
def parseTermLoop : Nat → Node → Parser → Except Err (Node × Parser)
  | 0, _, _ => .error .fuelOut
  | fuel+1, left, p =>
    let tk := p.cur
    if tk.type = .T_MUL ∨ tk.type = .T_DIV ∨ tk.type = .T_MOD then do
      let p ← advanceP p
      let (right, p) ← parseFactor fuel p
      parseTermLoop fuel (.exprBinary tk.type left right) p
    else .ok (left, p)

/-- `parse_term`. -/
def parseTerm : Nat → Parser → Except Err (Node × Parser)
  | 0, _ => .error .fuelOut
  | fuel+1, p => do
    let (l, p) ← parseFactor fuel p
    parseTermLoop fuel l p

/-- The `+ -` loop of `parse_expression`. -/
def parseExprLoop : Nat → Node → Parser → Except Err (Node × Parser)
  | 0, _, _ => .error .fuelOut
  | fuel+1, left, p =>
    let tk := p.cur
    if tk.type = .T_PLUS ∨ tk.type = .T_MINUS then do
      let p ← advanceP p
      let (right, p) ← parseTerm fuel p
      parseExprLoop fuel (.exprBinary tk.type left right) p
    else .ok (left, p)

/-- `parse_expression`. -/
def parseExpression : Nat → Parser → Except Err (Node × Parser)
  | 0, _ => .error .fuelOut
  | fuel+1, p => do
    let (l, p) ← parseTerm fuel p
    parseExprLoop fuel l p

/-- `parse_compare`: an optional comparison, then right-recursive `and`. -/
def parseCompare : Nat → Parser → Except Err (Node × Parser)
  | 0, _ => .error .fuelOut
  | fuel+1, p => do
    let (node, p) ← parseExpression fuel p
    let tk := p.cur
    if tk.type = .T_LT ∨ tk.type = .T_LE ∨ tk.type = .T_GT ∨ tk.type = .T_GE ∨
       tk.type = .T_EQ ∨ tk.type = .T_NEQ then do
      let p ← advanceP p
      let (right, p) ← parseExpression fuel p
      parseAndLoop fuel (.exprBinary tk.type node right) p
    else parseAndLoop fuel node p

/-- The `and` loop at the end of `parse_compare`. -/
def parseAndLoop : Nat → Node → Parser → Except Err (Node × Parser)
  | 0, _, _ => .error .fuelOut
  | fuel+1, node, p =>
    if p.cur.type = .T_AND then do
      let p ← advanceP p
      let (right, p) ← parseCompare fuel p
      parseAndLoop fuel (.exprBinary .T_AND node right) p
    else .ok (node, p)

/-- `parse_func_def` (the `T_FUNCTION` keyword is already the lookahead). -/
def parseFuncDef : Nat → Parser → Except Err (Node × Parser)
  | 0, _ => .error .fuelOut
  | fuel+1, p => do
    let p ← advanceP p
    if p.cur.type ≠ .T_IDENTIFIER then
      .error (.parseError p.lx.line "expected identifier after function")
    else do
      let name := p.cur.text.getD ""
      let p ← advanceP p
      let p ← expectP p .T_LPAREN "("
      let (params, p) ←
        if p.cur.type = .T_RPAREN then pure (([] : List String), p)
        else do
          let first := p.cur.text.getD ""
          let p ← advanceP p
          parseParamsLoop fuel [first] p
      let p ← expectP p .T_RPAREN ")"
      let p ← expectP p .T_LBRACE "\x7b"
      let (body, p) ← parseStatements fuel p
      let p ← expectP p .T_RBRACE "\x7d"
      .ok (.stmtFuncDef name params body, p)

/-- The comma-separated parameter loop of `parse_func_def`. -/
def parseParamsLoop : Nat → List String → Parser → Except Err (List String × Parser)
  | 0, _, _ => .error .fuelOut
  | fuel+1, acc, p =>
    if p.cur.type = .T_COMMA then do
      let p ← advanceP p
      if p.cur.type ≠ .T_IDENTIFIER then
        .error (.parseError p.lx.line "expected parameter name")
      else do
        let name := p.cur.text.getD ""
        let p ← advanceP p
        parseParamsLoop fuel (acc ++ [name]) p
    else .ok (acc, p)

/-- `parse_return_stmt`. -/
def parseReturnStmt : Nat → Parser → Except Err (Node × Parser)
  | 0, _ => .error .fuelOut
  | fuel+1, p => do
    let p ← advanceP p
    if p.cur.type = .T_DOT ∨ p.cur.type = .T_NEWLINE ∨ p.cur.type = .T_RBRACE then do
      let p ← expectStmtTerminator p
      .ok (.stmtReturn none, p)
    else do
      let (e, p) ← parseExpression fuel p
      let p ← expectStmtTerminator p
      .ok (.stmtReturn (some e), p)

/-- The statement-sequence loop of `parse_statements`: stop at EOF, `end`,
`then`, `do`, `}` or the identifier `else`; otherwise skip newlines and
parse one statement (a `none` statement — from `.` or EOF — stops). -/
def parseStmtsLoop : Nat → List Node → Parser → Except Err (List Node × Parser)
  | 0, _, _ => .error .fuelOut
  | fuel+1, acc, p =>
    let t := p.cur
    if t.type = .T_EOF ∨ t.type = .T_END ∨ t.type = .T_THEN ∨ t.type = .T_DO ∨
       t.type = .T_RBRACE ∨ (t.type = .T_IDENTIFIER ∧ t.text = some "else") then
      .ok (acc, p)
    else do
      let p ← skipNewlines fuel p
      let (st?, p) ← parseStatement fuel p
      match st? with
      | some st => parseStmtsLoop fuel (acc ++ [st]) p
      | none => .ok (acc, p)

/-- Newline skipping (both the loop in `parse_statements` and the one at
the head of `parse_statement`). -/
def skipNewlines : Nat → Parser → Except Err Parser
  | 0, _ => .error .fuelOut
  | fuel+1, p =>
    if p.cur.type = .T_NEWLINE then do
      let p ← advanceP p
      skipNewlines fuel p
    else .ok p

/-- `parse_statements`: a statement sequence wrapped in `N_STMT_LIST`. -/
def parseStatements : Nat → Parser → Except Err (Node × Parser)
  | 0, _ => .error .fuelOut
  | fuel+1, p => do
    let (stmts, p) ← parseStmtsLoop fuel [] p
    .ok (.stmtList stmts, p)

/-- `parse_statement`; `.ok (none, p)` models the `return NULL` of the
`T_DOT` and `T_EOF` branches. -/
def parseStatement : Nat → Parser → Except Err (Option Node × Parser)
  | 0, _ => .error .fuelOut
  | fuel+1, p => do
    let p ← skipNewlines fuel p
    let tk := p.cur
    if tk.type = .T_SET then do
      let p ← advanceP p
      if p.cur.type ≠ .T_IDENTIFIER then
        .error (.parseError p.lx.line "expected identifier after set")
      else do
        let name := p.cur.text.getD ""
        let p ← advanceP p
        let p ← expectP p .T_TO "to"
        let (e, p) ← parseExpression fuel p
        let p ← expectStmtTerminator p
        .ok (some (.stmtSet name e), p)
    else if tk.type = .T_PRINT then do
      let p ← advanceP p
      let (e, p) ← parseExpression fuel p
      let p ← expectStmtTerminator p
      .ok (some (.stmtPrint e), p)
    else if tk.type = .T_READ then do
      let p ← advanceP p
      if p.cur.type ≠ .T_IDENTIFIER then
        .error (.parseError p.lx.line "expected identifier after read")
      else do
        let name := p.cur.text.getD ""
        let p ← advanceP p
        let p ← expectStmtTerminator p
        .ok (some (.stmtRead name), p)
    else if tk.type = .T_IF then do
      let p ← advanceP p
      let (cond, p) ← parseCompare fuel p
      let p ← expectP p .T_THEN "then"
      let (body, p) ← parseStatements fuel p
      let (elseBody, p) ←
        if p.cur.type = .T_IDENTIFIER ∧ p.cur.text = some "else" then do
          let p ← advanceP p
          let (e, p) ← parseStatements fuel p
          pure (some e, p)
        else pure (none, p)
      let p ← expectP p .T_END "end to close if"
      let p ← expectStmtTerminator p
      .ok (some (.stmtIf cond body elseBody), p)
    else if tk.type = .T_WHILE then do
      let p ← advanceP p
      let (cond, p) ← parseCompare fuel p
      let p ← expectP p .T_DO "do"
      let (body, p) ← parseStatements fuel p
      let p ← expectP p .T_END "end to close while"
      let p ← expectStmtTerminator p
      .ok (some (.stmtWhile cond body), p)
    else if tk.type = .T_FUNCTION then do
      let (n, p) ← parseFuncDef fuel p
      .ok (some n, p)
    else if tk.type = .T_RETURN then do
      let (n, p) ← parseReturnStmt fuel p
      .ok (some n, p)
    else if tk.type = .T_DOT then do
      let p ← advanceP p
      .ok (none, p)
    else if tk.type = .T_EOF then .ok (none, p)
    else do
      let (e, p) ← parseExpression fuel p
      let p ← expectStmtTerminator p
      .ok (some (.stmtPrint e), p)

end

/-! ## Environment (second revision)

A scope is an association list (newest binding first, as the C `Var`
chain); the scope stack is a list with the current scope at the head and
the Global scope at the tail.  `main` pushes the Global scope before
evaluation, so the stack is never empty during execution. -/

/-- One scope: the `Var` chain. -/
structure Scope where
  vars : List (String × Value)
deriving Repr

/-- Interpreter state: scope stack, function table, and the external
`LineReader` (stdin lines for `read`) and `Writer` (stdout lines from
`print`). -/
structure EvalState where
  scopes : List Scope
  funcs : List (String × (List String × Node))
  input : List String
  output : List String
deriving Repr

/-- First binding of `name` in one `Var` chain. -/
def scopeFind (vars : List (String × Value)) (name : String) : Option Value :=
  match vars.find? (fun v => v.1 = name) with
  | some v => some v.2
  | none => none

/-- The chain walk of `var_get`: current scope, then parents. -/
def chainFind (scopes : List Scope) (name : String) : Option Value :=
  match scopes with
  | [] => none
  | s :: rest =>
    match scopeFind s.vars name with
    | some v => some v
    | none => chainFind rest name

/-- `var_get`: walk the scope chain; then (mirroring the redundant extra
check in the C code) consult the Global scope again when the current
scope exists and is not Global itself. -/
def varGet (st : EvalState) (name : String) : Option Value :=
  match chainFind st.scopes name with
  | some v => some v
  | none =>
    if 2 ≤ st.scopes.length then
      match st.scopes.getLast? with
      | some g => scopeFind g.vars name
      | none => none
    else none

/-- Overwrite the first binding of `name` in a `Var` chain. -/
def replaceFirstVar : List (String × Value) → String → Value → List (String × Value)
  | [], _, _ => []
  | q :: rest, name, v =>
    if q.1 = name then (name, v) :: rest
    else q :: replaceFirstVar rest name v

/-- Overwrite the first binding of `name`, or prepend a new one — the body
of `var_set` acting on one `Var` chain. -/
def scopeSet (vars : List (String × Value)) (name : String) (v : Value) :
    List (String × Value) :=
  match vars.find? (fun q => q.1 = name) with
  | some _ => replaceFirstVar vars name v
  | none => (name, v) :: vars

/-- `var_set`: search and update the current scope only (never parents).
With an empty stack the C code would dereference a null scope; that state
is unreachable because `main` pushes the Global scope first. -/
def varSet (st : EvalState) (name : String) (v : Value) : EvalState :=
  match st.scopes with
  | s :: rest => { st with scopes := ⟨scopeSet s.vars name v⟩ :: rest }
  | [] => st

/-- `func_get`: first match in the function table. -/
def funcGet (st : EvalState) (name : String) : Option (List String × Node) :=
  match st.funcs.find? (fun f => f.1 = name) with
  | some f => some f.2
  | none => none

/-- `push_scope`: prepend a fresh empty scope. -/
def pushScope (st : EvalState) : EvalState :=
  { st with scopes := ⟨[]⟩ :: st.scopes }

/-- `pop_scope`: destroy the head scope. -/
def popScope (st : EvalState) : EvalState :=
  { st with scopes := st.scopes.tail }

/-- Bind each parameter to its pre-computed argument value in the current
(new) scope, in order — the binding loop of the `N_EXPR_CALL` case. -/
def bindParams : List String → List Value → EvalState → EvalState
  | pn :: ps, v :: vs, st => bindParams ps vs (varSet st pn v)
  | _, _, st => st

/-! ## Evaluator (second revision) -/

/-- The early-return signal threaded through statement evaluation: the
`(int *returned, Value *return_val)` out-parameter pair. -/
structure Frame where
  returned : Bool
  returnVal : Value
deriving Repr

/-- C `fmod` on the fraction model: `x - trunc(x/y)*y`.  `fmod(x, 0)` is
NaN in C; this representation cannot express it and the model returns `0`
there (no theorem evaluates that case). -/
def qfmod (x y : Q) : Q :=
  if y.num = 0 then Q.zero
  else x.sub ((Q.ofInt ((x.div y).trunc)).mul y)

/-- String coercion used by `+` concatenation: strings verbatim, numbers
through `%g`; a `VAL_NONE` operand reads its zeroed `num` field. -/
def concatStr (v : Value) : String :=
  match v with
  | .vstr s => s
  | _ => fmtG v.numField

/-- The `N_EXPR_BINARY` case of `eval_expr` after both operands are
evaluated: string-concatenating `+`, numeric operators with a
division-by-zero check, comparisons and strict `and`. -/
def evalBinary (op : TokenType) (l r : Value) : Except Err Value :=
  if op = .T_PLUS ∧ (l.isStr ∨ r.isStr) then
    .ok (.vstr (concatStr l ++ concatStr r))
  else
    match l, r with
    | .vnum a, .vnum b =>
      match op with
      | .T_PLUS => .ok (.vnum (a.add b))
      | .T_MINUS => .ok (.vnum (a.sub b))
      | .T_MUL => .ok (.vnum (a.mul b))
      | .T_DIV =>
        if b.isZero then .error .divisionByZero else .ok (.vnum (a.div b))
      | .T_MOD => .ok (.vnum (qfmod a b))
      | .T_EQ => .ok (.vnum (if a.eqB b then .ofInt 1 else .ofInt 0))
      | .T_NEQ => .ok (.vnum (if a.eqB b then .ofInt 0 else .ofInt 1))
      | .T_GT => .ok (.vnum (if b.ltB a then .ofInt 1 else .ofInt 0))
      | .T_LT => .ok (.vnum (if a.ltB b then .ofInt 1 else .ofInt 0))
      | .T_LE => .ok (.vnum (if a.leB b then .ofInt 1 else .ofInt 0))
      | .T_GE => .ok (.vnum (if b.leB a then .ofInt 1 else .ofInt 0))
      | .T_AND =>
        if !a.isZero ∧ !b.isZero then .ok (.vnum (.ofInt 1))
        else .ok (.vnum (.ofInt 0))
      | _ => .ok .vnone
    | _, _ => .error .nonNumeric

/-- The `strtod`-consumed-everything test of the `read` statement: a line
that parses entirely as a decimal number is stored as `Number`, anything
else as the (newline-stripped) string.  Modelled for decimal forms
`[ws][sign]digits[.digits]`; C `strtod` additionally accepts exponent and
hex forms, which no claim exercises. -/
def parseStrtod (l : List Char) : Option Q :=
  let l1 := l.dropWhile (fun c => c = ' ' || c = '\t')
  let sgn : ℤ := match l1 with
    | '-' :: _ => -1
    | _ => 1
  let l2 : List Char := match l1 with
    | '-' :: r => r
    | '+' :: r => r
    | _ => l1
  let ip := l2.takeWhile isDigitC
  let r2 := l2.dropWhile isDigitC
  let fp : List Char := match r2 with
    | '.' :: r => r.takeWhile isDigitC
    | _ => []
  let rest : List Char := match r2 with
    | '.' :: r => r.dropWhile isDigitC
    | _ => r2
  if ip = [] ∧ fp = [] then none
  else if rest ≠ [] then none
  else some ⟨sgn * ((digitsToNat ip 0 : ℤ) * 10 ^ fp.length + digitsToNat fp 0),
    10 ^ fp.length⟩

/-- The value a `read` statement stores for one input line. -/
def readValue (line : String) : Value :=
  match parseStrtod line.toList with
  | some q => .vnum q
  | none => .vstr line

mutual

/-- `eval_expr` of `easylang_version2.0.c`.  In the `N_EXPR_CALL` case all
arguments are evaluated in the caller's current scope, left to right,
before the fresh scope is pushed; the body runs with a fresh
`returned`/`return_val` pair; the scope is popped before the result (the
`return_val` if the body returned, else the value of the last executed
statement) is yielded. -/
def evalExpr : Nat → Node → EvalState → Except Err (Value × EvalState)
  | 0, _, _ => .error .fuelOut
  | fuel+1, n, st =>
    match n with
    | .exprNumber q => .ok (.vnum q, st)
    | .exprString s => .ok (.vstr s, st)
    | .exprVar name =>
      match varGet st name with
      | some v => .ok (v, st)
      | none => .error (.undefVar name)
    | .exprCall name args =>
      match funcGet st name with
      | none => .error (.undefFunc name)
      | some (params, body) =>
        if params.length ≠ args.length then .error (.arityMismatch name)
        else do
          let (argVals, st1) ← evalArgs fuel args st
          let st2 := bindParams params argVals (pushScope st1)
          let (bodyRes, st3, fr') ← evalStmt fuel body st2 ⟨false, .vnone⟩
          let st4 := popScope st3
          if fr'.returned then .ok (fr'.returnVal, st4)
          else .ok (bodyRes, st4)
    | .exprBinary op l r => do
      let (lv, st1) ← evalExpr fuel l st
      let (rv, st2) ← evalExpr fuel r st1
      let v ← evalBinary op lv rv
      .ok (v, st2)
    | _ => .ok (.vnone, st)

/-- The argument loop of `N_EXPR_CALL`: evaluate left to right in the
current (caller) scope, threading any state effects. -/
def evalArgs : Nat → List Node → EvalState → Except Err (List Value × EvalState)
  | 0, _, _ => .error .fuelOut
  | _+1, [], st => .ok ([], st)
  | fuel+1, a :: rest, st => do
    let (v, st1) ← evalExpr fuel a st
    let (vs, st2) ← evalArgs fuel rest st1
    .ok (v :: vs, st2)

/-- `eval_stmt` of `easylang_version2.0.c`: a returned frame short-circuits
at entry; each case mirrors the corresponding `switch` arm. -/
def evalStmt : Nat → Node → EvalState → Frame → Except Err (Value × EvalState × Frame)
  | 0, _, _, _ => .error .fuelOut
  | fuel+1, n, st, fr =>
    if fr.returned then .ok (fr.returnVal, st, fr)
    else
      match n with
      | .stmtList stmts => evalStmtList fuel stmts .vnone st fr
      | .stmtSet name body => do
        let (v, st1) ← evalExpr fuel body st
        .ok (v, varSet st1 name v, fr)
      | .stmtPrint body => do
        let (v, st1) ← evalExpr fuel body st
        let st2 :=
          match v with
          | .vnum q => { st1 with output := st1.output ++ [fmtG q] }
          | .vstr s => { st1 with output := st1.output ++ [s] }
          | .vnone => st1
        .ok (.vnone, st2, fr)
      | .stmtRead name =>
        match st.input with
        | [] => .error .inputError
        | line :: rest =>
          let v := readValue line
          .ok (v, varSet { st with input := rest } name v, fr)
      | .stmtIf cond body elseBody => do
        let (cv, st1) ← evalExpr fuel cond st
        match cv with
        | .vnum q =>
          if !q.isZero then evalStmt fuel body st1 fr
          else
            match elseBody with
            | some e => evalStmt fuel e st1 fr
            | none => .ok (.vnone, st1, fr)
        | _ => .error .condNotNumeric
      | .stmtWhile cond body => evalWhileLoop fuel cond body .vnone st fr
      | .stmtFuncDef name params body =>
        if (funcGet st name).isSome then .error (.dupFunc name)
        else .ok (.vnone, { st with funcs := st.funcs ++ [(name, (params, body))] }, fr)
      | .stmtReturn bodyOpt =>
        match bodyOpt with
        | some b => do
          let (rv, st1) ← evalExpr fuel b st
          .ok (rv, st1, ⟨true, rv⟩)
        | none => .ok (.vnum Q.zero, st, ⟨true, .vnum Q.zero⟩)
      | _ => .ok (.vnone, st, fr)

/-- The `N_STMT_LIST` loop: children in order, stopping with the
`return_val` as soon as the frame reports a return. -/
def evalStmtList : Nat → List Node → Value → EvalState → Frame →
    Except Err (Value × EvalState × Frame)
  | 0, _, _, _, _ => .error .fuelOut
  | _+1, [], acc, st, fr => .ok (acc, st, fr)
  | fuel+1, c :: rest, _, st, fr => do
    let (v, st1, fr1) ← evalStmt fuel c st fr
    if fr1.returned then .ok (fr1.returnVal, st1, fr1)
    else evalStmtList fuel rest v st1 fr1

/-- The `N_STMT_WHILE` loop: break when the condition is non-numeric, is
zero, or the frame already returned; after the body, a returned frame
yields the `return_val` immediately. -/
def evalWhileLoop : Nat → Node → Node → Value → EvalState → Frame →
    Except Err (Value × EvalState × Frame)
  | 0, _, _, _, _, _ => .error .fuelOut
  | fuel+1, cond, body, res, st, fr => do
    let (cv, st1) ← evalExpr fuel cond st
    match cv with
    | .vnum q =>
      if q.isZero ∨ fr.returned then .ok (res, st1, fr)
      else do
        let (r, st2, fr2) ← evalStmt fuel body st1 fr
        if fr2.returned then .ok (fr2.returnVal, st2, fr2)
        else evalWhileLoop fuel cond body r st2 fr2
    | _ => .ok (res, st1, fr)

end

deriving instance DecidableEq for Except

/-- `main` of the second revision: push the Global scope, initialize the
parser, parse the whole program, evaluate it with a fresh frame, and
yield the lines printed.  `fuel` bounds both parser and evaluator depth. -/
def runProgramWith (fuel : Nat) (srcText : String) (input : List String) :
    Except Err (List String) :=
  let src := srcText.toList
  match nextToken ⟨src, 0, 1⟩ with
  | none => .error .fuelOut
  | some (t0, lx0) => do
    let (ast, _) ← parseStatements fuel ⟨lx0, t0⟩
    let st0 : EvalState := { scopes := [⟨[]⟩], funcs := [], input := input, output := [] }
    let (_, st, _) ← evalStmt fuel ast st0 ⟨false, .vnone⟩
    .ok st.output

/-- `runProgramWith` with no stdin. -/
def runProgram (fuel : Nat) (srcText : String) : Except Err (List String) :=
  runProgramWith fuel srcText []

/-! ## Evaluator of the first revision (`easylang.c`)

The first revision has no functions and a single flat variable list, and
its `eval_expr` contains no error paths at all: an undefined variable
yields `VAL_NONE`, arithmetic reads the `num` field of whatever operands
it gets, and `T_DIV` divides without testing the divisor. -/

/-- The `N_EXPR_BINARY` switch of the first revision's `eval_expr`.  Its
`T_DIV` arm divides unconditionally: in C a zero divisor produces an IEEE
infinity or NaN, which the fraction model cannot represent (it yields a
junk `0` there); no
theorem relies on the numeric value of that case, only on the fact that a
`VAL_NUM` value is produced without any runtime error. -/
def evalBinaryV1 (op : TokenType) (l r : Value) : Value :=
  match op with
  | .T_PLUS =>
    if l.isStr ∨ r.isStr then .vstr (concatStr l ++ concatStr r)
    else .vnum (l.numField.add r.numField)
  | .T_MINUS => .vnum (l.numField.sub r.numField)
  | .T_MUL => .vnum (l.numField.mul r.numField)
  | .T_DIV => .vnum (l.numField.div r.numField)
  | .T_MOD => .vnum (qfmod l.numField r.numField)
  | .T_EQ => .vnum (if l.numField.eqB r.numField then .ofInt 1 else .ofInt 0)
  | .T_NEQ => .vnum (if l.numField.eqB r.numField then .ofInt 0 else .ofInt 1)
  | .T_GT => .vnum (if r.numField.ltB l.numField then .ofInt 1 else .ofInt 0)
  | .T_LT => .vnum (if l.numField.ltB r.numField then .ofInt 1 else .ofInt 0)
  | .T_LE => .vnum (if l.numField.leB r.numField then .ofInt 1 else .ofInt 0)
  | .T_GE => .vnum (if r.numField.leB l.numField then .ofInt 1 else .ofInt 0)
  | .T_AND =>
    if !l.numField.isZero ∧ !r.numField.isZero then .vnum (.ofInt 1)
    else .vnum (.ofInt 0)
  | _ => .vnone

/-- `eval_expr` of the first revision over its flat variable list (a pure
function: that revision's expressions cannot have side effects and never
abort). -/
def evalExprV1 (vars : List (String × Value)) : Node → Value
  | .exprNumber q => .vnum q
  | .exprString s => .vstr s
  | .exprVar name =>
    match scopeFind vars name with
    | some v => v
    | none => .vnone
  | .exprBinary op l r => evalBinaryV1 op (evalExprV1 vars l) (evalExprV1 vars r)
  | _ => .vnone

/-! ## Lexer lemmas: cursor progress and fuel sufficiency -/

theorem peekc_ne_nul_lt {lx : Lexer} (h : peekc lx ≠ nulChar) :
    lx.pos < lx.src.length := by
  by_contra hle
  push_neg at hle
  exact h (List.getD_eq_default _ _ hle)

theorem getcL_snd_src (lx : Lexer) : ((getcL lx).2).src = lx.src := rfl

theorem getcL_fst (lx : Lexer) : (getcL lx).1 = peekc lx := rfl

theorem getcL_pos_le (lx : Lexer) : lx.pos ≤ ((getcL lx).2).pos := by
  simp only [getcL]
  split <;> omega

theorem getcL_pos_of_ne {lx : Lexer} (h : peekc lx ≠ nulChar) :
    ((getcL lx).2).pos = lx.pos + 1 := by
  simp [getcL, h]

theorem commentLoopF_spec :
    ∀ (fuel : Nat) (lx : Lexer), lx.src.length - lx.pos < fuel →
      ∃ r, commentLoopF fuel lx = some r ∧ r.src = lx.src ∧ lx.pos ≤ r.pos := by
  intro fuel
  induction fuel with
  | zero => intro lx h; omega
  | succ fuel ih =>
    intro lx h
    by_cases hnul : peekc lx = nulChar
    · exact ⟨lx, by simp [commentLoopF, hnul], rfl, Nat.le_refl _⟩
    · have hlt := peekc_ne_nul_lt hnul
      have hpos := getcL_pos_of_ne hnul
      by_cases hnl : (getcL lx).1 = '\n'
      · exact ⟨(getcL lx).2, by simp [commentLoopF, hnul, hnl], rfl, by omega⟩
      · obtain ⟨r, hr, hsrc, hge⟩ := ih (getcL lx).2
          (by rw [getcL_snd_src, hpos]; omega)
        exact ⟨r, by simp [commentLoopF, hnul, hnl, hr], by rw [hsrc, getcL_snd_src],
          by rw [hpos] at hge; omega⟩

theorem commentLoopF_progress {fuel : Nat} {lx : Lexer}
    (h : lx.src.length - lx.pos < fuel) (hnul : peekc lx ≠ nulChar) :
    ∃ r, commentLoopF fuel lx = some r ∧ r.src = lx.src ∧ lx.pos < r.pos := by
  have hlt := peekc_ne_nul_lt hnul
  obtain ⟨fuel, rfl⟩ : ∃ f, fuel = f + 1 := ⟨fuel - 1, by omega⟩
  have hpos := getcL_pos_of_ne hnul
  by_cases hnl : (getcL lx).1 = '\n'
  · exact ⟨(getcL lx).2, by simp [commentLoopF, hnul, hnl], rfl, by omega⟩
  · obtain ⟨r, hr, hsrc, hge⟩ := commentLoopF_spec fuel (getcL lx).2
      (by rw [getcL_snd_src, hpos]; omega)
    exact ⟨r, by simp [commentLoopF, hnul, hnl, hr], by rw [hsrc, getcL_snd_src],
      by rw [hpos] at hge; omega⟩

theorem isIdentNumChar_nul : isIdentNumChar nulChar = false := by decide

theorem identNumLoopF_spec :
    ∀ (fuel : Nat) (lx : Lexer), lx.src.length - lx.pos < fuel →
      ∃ r, identNumLoopF fuel lx = some r ∧ r.src = lx.src ∧ lx.pos ≤ r.pos := by
  intro fuel
  induction fuel with
  | zero => intro lx h; omega
  | succ fuel ih =>
    intro lx h
    by_cases hc : isIdentNumChar (peekc lx)
    · have hnul : peekc lx ≠ nulChar := by
        intro he; rw [he, isIdentNumChar_nul] at hc; exact absurd hc (by simp)
      have hlt := peekc_ne_nul_lt hnul
      have hpos := getcL_pos_of_ne hnul
      obtain ⟨r, hr, hsrc, hge⟩ := ih (getcL lx).2 (by rw [getcL_snd_src, hpos]; omega)
      exact ⟨r, by simp [identNumLoopF, hc, hr], by rw [hsrc, getcL_snd_src],
        by rw [hpos] at hge; omega⟩
    · exact ⟨lx, by simp [identNumLoopF, hc], rfl, Nat.le_refl _⟩

theorem identNumLoopF_progress {fuel : Nat} {lx : Lexer}
    (h : lx.src.length - lx.pos < fuel) (hc : isIdentNumChar (peekc lx)) :
    ∃ r, identNumLoopF fuel lx = some r ∧ r.src = lx.src ∧ lx.pos < r.pos := by
  have hnul : peekc lx ≠ nulChar := by
    intro he; rw [he, isIdentNumChar_nul] at hc; exact absurd hc (by simp)
  have hlt := peekc_ne_nul_lt hnul
  have hpos := getcL_pos_of_ne hnul
  obtain ⟨fuel, rfl⟩ : ∃ f, fuel = f + 1 := ⟨fuel - 1, by omega⟩
  obtain ⟨r, hr, hsrc, hge⟩ := identNumLoopF_spec fuel (getcL lx).2
    (by rw [getcL_snd_src, hpos]; omega)
  exact ⟨r, by simp [identNumLoopF, hc, hr], by rw [hsrc, getcL_snd_src],
    by rw [hpos] at hge; omega⟩

theorem stringLoopF_spec :
    ∀ (fuel : Nat) (lx : Lexer), lx.src.length - lx.pos < fuel →
      ∃ r, stringLoopF fuel lx = some r ∧ r.src = lx.src ∧ lx.pos ≤ r.pos := by
  intro fuel
  induction fuel with
  | zero => intro lx h; omega
  | succ fuel ih =>
    intro lx h
    by_cases hc : peekc lx ≠ nulChar ∧ peekc lx ≠ '"'
    · have hlt := peekc_ne_nul_lt hc.1
      have hpos := getcL_pos_of_ne hc.1
      have hbsn : ('\\' : Char) ≠ nulChar := by decide
      by_cases hbs : peekc lx = '\\'
      · set lx1 := (getcL lx).2 with hlx1
        have h1src : lx1.src = lx.src := getcL_snd_src lx
        have h1pos : lx1.pos = lx.pos + 1 := hpos
        by_cases h2 : peekc lx1 ≠ nulChar
        · have h2pos := getcL_pos_of_ne h2
          obtain ⟨r, hr, hsrc, hge⟩ := ih (getcL lx1).2
            (by rw [getcL_snd_src, h2pos, h1src, h1pos]; omega)
          refine ⟨r, by simp [stringLoopF, hc, hbs, h2, hr, hbsn], ?_, ?_⟩
          · rw [hsrc, getcL_snd_src, h1src]
          · rw [h2pos, h1pos] at hge; omega
        · obtain ⟨r, hr, hsrc, hge⟩ := ih lx1 (by rw [h1src, h1pos]; omega)
          refine ⟨r, by simp [stringLoopF, hc, hbs, h2, hr, hbsn], ?_, ?_⟩
          · rw [hsrc, h1src]
          · rw [h1pos] at hge; omega
      · obtain ⟨r, hr, hsrc, hge⟩ := ih (getcL lx).2
          (by rw [getcL_snd_src, hpos]; omega)
        refine ⟨r, by simp [stringLoopF, hc, hbs, hr], ?_, ?_⟩
        · rw [hsrc, getcL_snd_src]
        · rw [hpos] at hge; omega
    · exact ⟨lx, by simp [stringLoopF, hc], rfl, Nat.le_refl _⟩

theorem lexStringF_spec {fuel : Nat} {lx : Lexer}
    (h : lx.src.length - lx.pos < fuel) (hq : peekc lx = '"') :
    ∃ t lx', lexStringF fuel lx = some (t, lx') ∧ t.type = .T_STRING ∧
      lx'.src = lx.src ∧ lx.pos < lx'.pos := by
  have hnul : peekc lx ≠ nulChar := by rw [hq]; decide
  have hlt := peekc_ne_nul_lt hnul
  have hpos := getcL_pos_of_ne hnul
  obtain ⟨r, hr, hsrc, hge⟩ := stringLoopF_spec fuel (getcL lx).2
    (by rw [getcL_snd_src, hpos]; omega)
  rw [getcL_snd_src] at hsrc
  rw [hpos] at hge
  by_cases hcl : peekc r = '"'
  · have hrnul : peekc r ≠ nulChar := by rw [hcl]; decide
    have hrpos := getcL_pos_of_ne hrnul
    refine ⟨⟨.T_STRING, some (substrS lx.src ((getcL lx).2).pos r.pos)⟩, (getcL r).2,
      ?_, rfl, ?_, ?_⟩
    · simp only [lexStringF, hr]
      rw [if_pos hcl]
    · rw [getcL_snd_src, hsrc]
    · rw [hrpos]; omega
  · refine ⟨⟨.T_STRING, some (substrS lx.src ((getcL lx).2).pos r.pos)⟩, r,
      ?_, rfl, hsrc, by omega⟩
    simp only [lexStringF, hr]
    rw [if_neg hcl]

theorem lexIdentOrNumberF_spec {fuel : Nat} {lx : Lexer}
    (h : lx.src.length - lx.pos < fuel) (hc : isIdentNumChar (peekc lx)) :
    ∃ t lx', lexIdentOrNumberF fuel lx = some (t, lx') ∧
      (t.type = .T_NUMBER ∨ t.type = .T_IDENTIFIER) ∧
      lx'.src = lx.src ∧ lx.pos < lx'.pos := by
  obtain ⟨r, hr, hsrc, hgt⟩ := identNumLoopF_progress h hc
  by_cases hnum : numericScan ((lx.src.drop lx.pos).take (r.pos - lx.pos)) 0 true
  · refine ⟨⟨.T_NUMBER, some ⟨(lx.src.drop lx.pos).take (r.pos - lx.pos)⟩⟩, r,
      ?_, Or.inl rfl, hsrc, hgt⟩
    simp only [lexIdentOrNumberF, hr]
    rw [if_pos hnum]
  · refine ⟨⟨.T_IDENTIFIER, some ⟨((lx.src.drop lx.pos).take (r.pos - lx.pos)).map tolowerC⟩⟩, r,
      ?_, Or.inr rfl, hsrc, hgt⟩
    simp only [lexIdentOrNumberF, hr]
    rw [if_neg hnum]

theorem ntSkipF_spec :
    ∀ (fuel : Nat) (lx : Lexer), lx.src.length - lx.pos < fuel →
      (∃ t lx', ntSkipF fuel lx = some (.inl (t, lx')) ∧ t.type = .T_NEWLINE ∧
          lx'.src = lx.src ∧ lx.pos < lx'.pos ∧ lx.pos < lx.src.length) ∨
      (∃ lx', ntSkipF fuel lx = some (.inr lx') ∧ lx'.src = lx.src ∧ lx.pos ≤ lx'.pos) := by
  intro fuel
  induction fuel with
  | zero => intro lx h; omega
  | succ fuel ih =>
    intro lx h
    by_cases hnul : peekc lx = nulChar
    · exact Or.inr ⟨lx, by simp [ntSkipF, hnul], rfl, Nat.le_refl _⟩
    · have hlt := peekc_ne_nul_lt hnul
      have hpos := getcL_pos_of_ne hnul
      have hne1 : ('\r' : Char) ≠ nulChar := by decide
      have hne2 : ('\n' : Char) ≠ nulChar := by decide
      have hne3 : ('#' : Char) ≠ nulChar := by decide
      by_cases hsp : peekc lx = ' ' ∨ peekc lx = '\t'
      · have heq : ntSkipF (fuel+1) lx = ntSkipF fuel (getcL lx).2 := by
          simp [ntSkipF, hnul, hsp]
        have := ih (getcL lx).2 (by rw [getcL_snd_src, hpos]; omega)
        rcases this with ⟨t, lx', he, ht, hs, hp, _⟩ | ⟨lx', he, hs, hp⟩
        · exact Or.inl ⟨t, lx', by rw [heq, he], ht, by rw [hs, getcL_snd_src],
            by rw [getcL_snd_src] at hs; rw [hpos] at hp; omega, hlt⟩
        · exact Or.inr ⟨lx', by rw [heq, he], by rw [hs, getcL_snd_src],
            by rw [hpos] at hp; omega⟩
      · by_cases hcr : peekc lx = '\r'
        · by_cases hn2 : peekc (getcL lx).2 = '\n'
          · have h2nul : peekc (getcL lx).2 ≠ nulChar := by rw [hn2]; decide
            have h2pos := getcL_pos_of_ne h2nul
            refine Or.inl ⟨⟨.T_NEWLINE, none⟩, (getcL (getcL lx).2).2, ?_, rfl, ?_, ?_, hlt⟩
            · simp [ntSkipF, hnul, hsp, hcr, hn2, hne1]
            · rw [getcL_snd_src, getcL_snd_src]
            · rw [h2pos, hpos]; omega
          · refine Or.inl ⟨⟨.T_NEWLINE, none⟩, (getcL lx).2, ?_, rfl, getcL_snd_src lx,
              ?_, hlt⟩
            · simp [ntSkipF, hnul, hsp, hcr, hn2, hne1]
            · rw [hpos]; omega
        · by_cases hlf : peekc lx = '\n'
          · refine Or.inl ⟨⟨.T_NEWLINE, none⟩, (getcL lx).2, ?_, rfl, getcL_snd_src lx,
              ?_, hlt⟩
            · simp [ntSkipF, hnul, hsp, hcr, hlf, hne2]
            · rw [hpos]; omega
          · by_cases hhash : peekc lx = '#'
            · obtain ⟨r, hr, hrsrc, hrpos⟩ := commentLoopF_progress h hnul
              have heq : ntSkipF (fuel+1) lx = ntSkipF fuel r := by
                simp [ntSkipF, hnul, hsp, hcr, hlf, hhash, hr, hne3]
              have := ih r (by rw [hrsrc]; omega)
              rcases this with ⟨t, lx', he, ht, hs, hp, _⟩ | ⟨lx', he, hs, hp⟩
              · exact Or.inl ⟨t, lx', by rw [heq, he], ht, by rw [hs, hrsrc], by omega, hlt⟩
              · exact Or.inr ⟨lx', by rw [heq, he], by rw [hs, hrsrc], by omega⟩
            · exact Or.inr ⟨lx, by simp [ntSkipF, hnul, hsp, hcr, hlf, hhash, hne3], rfl,
                Nat.le_refl _⟩

theorem identNumChar_of_alpha {c : Char} (h : isAlphaC c ∨ c = '_') :
    isIdentNumChar c := by
  rcases h with h | h <;> simp [isIdentNumChar, isAlnumC, h]

theorem identNumChar_of_digit {c : Char} (h : isDigitC c ∨ c = '.') :
    isIdentNumChar c := by
  rcases h with h | h <;> simp [isIdentNumChar, isAlnumC, h]

theorem applyKeywords_snd (kw : String → Option TokenType) (t : Token) (lx : Lexer) :
    (applyKeywords kw t lx).2 = lx := by
  unfold applyKeywords
  split
  · split <;> rfl
  · rfl

theorem nextTokenF_spec {fuel : Nat} {lx : Lexer} (h : lx.src.length - lx.pos < fuel) :
    ∃ t lx', nextTokenF fuel lx = some (t, lx') ∧ lx'.src = lx.src ∧ lx.pos ≤ lx'.pos ∧
      (t.type ≠ .T_EOF → lx.pos < lx'.pos ∧ lx.pos < lx.src.length) := by
  rcases ntSkipF_spec fuel lx h with ⟨t, lx1, he, _, hs, hp, hplen⟩ | ⟨lx1, he, hs, hp⟩
  · exact ⟨t, lx1, by simp [nextTokenF, he], hs, Nat.le_of_lt hp, fun _ => ⟨hp, hplen⟩⟩
  · have hfuel1 : lx1.src.length - lx1.pos < fuel := by rw [hs]; omega
    have hslen : lx1.src.length = lx.src.length := by rw [hs]
    have heq : nextTokenF fuel lx =
        (if peekc lx1 = nulChar then some (⟨.T_EOF, none⟩, lx1)
        else if peekc lx1 = '"' then lexStringF fuel lx1
        else if isAlphaC (peekc lx1) ∨ peekc lx1 = '_' then
          match lexIdentOrNumberF fuel lx1 with
          | none => none
          | some (t, lx') => some (applyKeywords keywordTok t lx')
        else if isDigitC (peekc lx1) ∨ peekc lx1 = '.' then lexIdentOrNumberF fuel lx1
        else if peekc lx1 = '.' then some (⟨.T_DOT, none⟩, (getcL lx1).2)
        else if peekc lx1 = '(' then some (⟨.T_LPAREN, none⟩, (getcL lx1).2)
        else if peekc lx1 = ')' then some (⟨.T_RPAREN, none⟩, (getcL lx1).2)
        else if peekc lx1 = '{' then some (⟨.T_LBRACE, none⟩, (getcL lx1).2)
        else if peekc lx1 = '}' then some (⟨.T_RBRACE, none⟩, (getcL lx1).2)
        else if peekc lx1 = ',' then some (⟨.T_COMMA, none⟩, (getcL lx1).2)
        else if peekc lx1 = '+' then some (⟨.T_PLUS, none⟩, (getcL lx1).2)
        else if peekc lx1 = '-' then some (⟨.T_MINUS, none⟩, (getcL lx1).2)
        else if peekc lx1 = '*' then some (⟨.T_MUL, none⟩, (getcL lx1).2)
        else if peekc lx1 = '/' then some (⟨.T_DIV, none⟩, (getcL lx1).2)
        else if peekc lx1 = '%' then some (⟨.T_MOD, none⟩, (getcL lx1).2)
        else if peekc lx1 = '<' then
          if peekc (getcL lx1).2 = '=' then some (⟨.T_LE, none⟩, (getcL (getcL lx1).2).2)
          else some (⟨.T_LT, none⟩, (getcL lx1).2)
        else if peekc lx1 = '>' then
          if peekc (getcL lx1).2 = '=' then some (⟨.T_GE, none⟩, (getcL (getcL lx1).2).2)
          else some (⟨.T_GT, none⟩, (getcL lx1).2)
        else if peekc lx1 = '=' then
          if peekc (getcL lx1).2 = '=' then some (⟨.T_EQ, none⟩, (getcL (getcL lx1).2).2)
          else some (⟨.T_UNKNOWN, none⟩,
            (getcL { (getcL lx1).2 with pos := (getcL lx1).2.pos - 1 }).2)
        else if peekc lx1 = '!' then
          if peekc (getcL lx1).2 = '=' then some (⟨.T_NEQ, none⟩, (getcL (getcL lx1).2).2)
          else some (⟨.T_UNKNOWN, none⟩,
            (getcL { (getcL lx1).2 with pos := (getcL lx1).2.pos - 1 }).2)
        else some (⟨.T_UNKNOWN, none⟩, (getcL lx1).2)) := by
      simp only [nextTokenF, he]
    rw [heq]; clear heq
    by_cases h1 : peekc lx1 = nulChar
    · rw [if_pos h1]
      exact ⟨_, lx1, rfl, hs, hp, fun hne => absurd rfl hne⟩
    · rw [if_neg h1]
      have hlt1 := peekc_ne_nul_lt h1
      have hpos1 := getcL_pos_of_ne h1
      by_cases h2 : peekc lx1 = '"'
      · rw [if_pos h2]
        obtain ⟨t, lx', he2, _, hsrc2, hgt2⟩ := lexStringF_spec hfuel1 h2
        exact ⟨t, lx', he2, by rw [hsrc2, hs], by omega, fun _ => ⟨by omega, by omega⟩⟩
      · rw [if_neg h2]
        by_cases h3 : isAlphaC (peekc lx1) ∨ peekc lx1 = '_'
        · rw [if_pos h3]
          obtain ⟨t, lx', he3, _, hsrc3, hgt3⟩ :=
            lexIdentOrNumberF_spec hfuel1 (identNumChar_of_alpha h3)
          rw [he3]
          refine ⟨(applyKeywords keywordTok t lx').1, (applyKeywords keywordTok t lx').2,
            rfl, ?_, ?_, fun _ => ⟨?_, ?_⟩⟩ <;> try rw [applyKeywords_snd]
          · rw [hsrc3, hs]
          · omega
          · omega
          · omega
        · rw [if_neg h3]
          by_cases h4 : isDigitC (peekc lx1) ∨ peekc lx1 = '.'
          · rw [if_pos h4]
            obtain ⟨t, lx', he4, _, hsrc4, hgt4⟩ :=
              lexIdentOrNumberF_spec hfuel1 (identNumChar_of_digit h4)
            exact ⟨t, lx', he4, by rw [hsrc4, hs], by omega, fun _ => ⟨by omega, by omega⟩⟩
          · rw [if_neg h4]
            by_cases h5 : peekc lx1 = '.'
            · exact absurd (Or.inr h5) h4
            · rw [if_neg h5]
              have hsingle : ∀ tk : Token,
                  (∃ t lx', some (tk, (getcL lx1).2) = some (t, lx') ∧ lx'.src = lx.src ∧
                    lx.pos ≤ lx'.pos ∧
                    (t.type ≠ .T_EOF → lx.pos < lx'.pos ∧ lx.pos < lx.src.length)) := by
                intro tk
                exact ⟨tk, (getcL lx1).2, rfl, by rw [getcL_snd_src, hs],
                  by omega, fun _ => ⟨by omega, by omega⟩⟩
              have hdouble : ∀ tk : Token, (peekc (getcL lx1).2 = '=') →
                  (∃ t lx', some (tk, (getcL (getcL lx1).2).2) = some (t, lx') ∧
                    lx'.src = lx.src ∧ lx.pos ≤ lx'.pos ∧
                    (t.type ≠ .T_EOF → lx.pos < lx'.pos ∧ lx.pos < lx.src.length)) := by
                intro tk hq
                have : peekc (getcL lx1).2 ≠ nulChar := by rw [hq]; decide
                have h2pos := getcL_pos_of_ne this
                exact ⟨tk, (getcL (getcL lx1).2).2, rfl,
                  by rw [getcL_snd_src, getcL_snd_src, hs],
                  by omega, fun _ => ⟨by omega, by omega⟩⟩
              have hback : ∀ tk : Token,
                  (∃ t lx', some (tk,
                      (getcL { (getcL lx1).2 with pos := (getcL lx1).2.pos - 1 }).2) =
                      some (t, lx') ∧ lx'.src = lx.src ∧ lx.pos ≤ lx'.pos ∧
                    (t.type ≠ .T_EOF → lx.pos < lx'.pos ∧ lx.pos < lx.src.length)) := by
                intro tk
                have hbpeek : peekc { (getcL lx1).2 with pos := (getcL lx1).2.pos - 1 } =
                    peekc lx1 := by
                  show lx1.src.getD ((getcL lx1).2.pos - 1) nulChar =
                    lx1.src.getD lx1.pos nulChar
                  rw [hpos1, Nat.add_sub_cancel]
                have hbne : peekc { (getcL lx1).2 with pos := (getcL lx1).2.pos - 1 } ≠
                    nulChar := by rw [hbpeek]; exact h1
                have hb2 := getcL_pos_of_ne hbne
                have hbpos : ({ (getcL lx1).2 with pos := (getcL lx1).2.pos - 1 } :
                    Lexer).pos = (getcL lx1).2.pos - 1 := rfl
                refine ⟨tk, _, rfl, ?_, ?_, fun _ => ⟨?_, ?_⟩⟩
                · show ({ (getcL lx1).2 with pos := (getcL lx1).2.pos - 1 } :
                    Lexer).src = lx.src
                  rw [show ({ (getcL lx1).2 with pos := (getcL lx1).2.pos - 1 } :
                    Lexer).src = lx1.src from rfl, hs]
                · rw [hb2, hbpos]; omega
                · rw [hb2, hbpos]; omega
                · omega
              by_cases h6 : peekc lx1 = '('
              · rw [if_pos h6]; exact hsingle _
              rw [if_neg h6]
              by_cases h7 : peekc lx1 = ')'
              · rw [if_pos h7]; exact hsingle _
              rw [if_neg h7]
              by_cases h8 : peekc lx1 = '{'
              · rw [if_pos h8]; exact hsingle _
              rw [if_neg h8]
              by_cases h9 : peekc lx1 = '}'
              · rw [if_pos h9]; exact hsingle _
              rw [if_neg h9]
              by_cases h10 : peekc lx1 = ','
              · rw [if_pos h10]; exact hsingle _
              rw [if_neg h10]
              by_cases h11 : peekc lx1 = '+'
              · rw [if_pos h11]; exact hsingle _
              rw [if_neg h11]
              by_cases h12 : peekc lx1 = '-'
              · rw [if_pos h12]; exact hsingle _
              rw [if_neg h12]
              by_cases h13 : peekc lx1 = '*'
              · rw [if_pos h13]; exact hsingle _
              rw [if_neg h13]
              by_cases h14 : peekc lx1 = '/'
              · rw [if_pos h14]; exact hsingle _
              rw [if_neg h14]
              by_cases h15 : peekc lx1 = '%'
              · rw [if_pos h15]; exact hsingle _
              rw [if_neg h15]
              by_cases h16 : peekc lx1 = '<'
              · rw [if_pos h16]
                by_cases hq : peekc (getcL lx1).2 = '='
                · rw [if_pos hq]; exact hdouble _ hq
                · rw [if_neg hq]; exact hsingle _
              rw [if_neg h16]
              by_cases h17 : peekc lx1 = '>'
              · rw [if_pos h17]
                by_cases hq : peekc (getcL lx1).2 = '='
                · rw [if_pos hq]; exact hdouble _ hq
                · rw [if_neg hq]; exact hsingle _
              rw [if_neg h17]
              by_cases h18 : peekc lx1 = '='
              · rw [if_pos h18]
                by_cases hq : peekc (getcL lx1).2 = '='
                · rw [if_pos hq]; exact hdouble _ hq
                · rw [if_neg hq]; exact hback _
              rw [if_neg h18]
              by_cases h19 : peekc lx1 = '!'
              · rw [if_pos h19]
                by_cases hq : peekc (getcL lx1).2 = '='
                · rw [if_pos hq]; exact hdouble _ hq
                · rw [if_neg hq]; exact hback _
              rw [if_neg h19]
              exact hsingle _

theorem nextToken_spec (lx : Lexer) :
    ∃ t lx', nextToken lx = some (t, lx') ∧ lx'.src = lx.src ∧ lx.pos ≤ lx'.pos ∧
      (t.type ≠ .T_EOF → lx.pos < lx'.pos ∧ lx.pos < lx.src.length) :=
  nextTokenF_spec (by omega)

theorem tokenizeF_spec :
    ∀ (fuel : Nat) (lx : Lexer), lx.src.length - lx.pos < fuel →
      ∃ pre last, tokenizeF fuel lx = some (pre ++ [last]) ∧ last.type = .T_EOF ∧
        ∀ t ∈ pre, t.type ≠ .T_EOF := by
  intro fuel
  induction fuel with
  | zero => intro lx h; omega
  | succ fuel ih =>
    intro lx h
    obtain ⟨t, lx', he, hs, hp, hstrict⟩ := nextToken_spec lx
    by_cases ht : t.type = .T_EOF
    · exact ⟨[], t, by simp [tokenizeF, he, ht], ht, by simp⟩
    · obtain ⟨hlt, hlen⟩ := hstrict ht
      obtain ⟨pre, last, hrec, hlast, hpre⟩ := ih lx' (by rw [hs]; omega)
      refine ⟨t :: pre, last, ?_, hlast, ?_⟩
      · simp [tokenizeF, he, ht, hrec]
      · intro x hx
        rcases List.mem_cons.mp hx with rfl | hx
        · exact ht
        · exact hpre x hx

/-! ## Lexer lemmas: no `T_DOT` token is ever produced -/

theorem ntSkipF_inl_newline : ∀ (fuel : Nat) (lx : Lexer) (t : Token) (lx1 : Lexer),
    ntSkipF fuel lx = some (.inl (t, lx1)) → t.type = .T_NEWLINE := by
  intro fuel
  induction fuel with
  | zero => intro lx t lx1 h; simp [ntSkipF] at h
  | succ fuel ih =>
    intro lx t lx1 h
    simp only [ntSkipF] at h
    split_ifs at h with h1 h2 h3 h4 h5 h6
    · simp at h
    · exact ih _ _ _ h
    · simp only [Option.some.injEq, Sum.inl.injEq, Prod.mk.injEq] at h
      rw [← h.1]
    · simp only [Option.some.injEq, Sum.inl.injEq, Prod.mk.injEq] at h
      rw [← h.1]
    · simp only [Option.some.injEq, Sum.inl.injEq, Prod.mk.injEq] at h
      rw [← h.1]
    · rcases hc : commentLoopF (fuel+1) lx with _ | r
      · rw [hc] at h; simp at h
      · rw [hc] at h; exact ih _ _ _ h
    · simp at h

theorem lexStringF_type {fuel : Nat} {lx : Lexer} {r : Token × Lexer}
    (h : lexStringF fuel lx = some r) : r.1.type = .T_STRING := by
  unfold lexStringF at h
  rcases hc : stringLoopF fuel (getcL lx).2 with _ | lx1
  · rw [hc] at h; simp at h
  · rw [hc] at h
    simp only [Option.some.injEq] at h
    rw [← h]

theorem lexIdentOrNumberF_types {fuel : Nat} {lx : Lexer} {r : Token × Lexer}
    (h : lexIdentOrNumberF fuel lx = some r) :
    r.1.type = .T_NUMBER ∨ r.1.type = .T_IDENTIFIER := by
  unfold lexIdentOrNumberF at h
  rcases hc : identNumLoopF fuel lx with _ | lx1
  · rw [hc] at h; simp at h
  · rw [hc] at h
    dsimp only at h
    split_ifs at h <;>
      (simp only [Option.some.injEq] at h; rw [← h])
    · exact Or.inl rfl
    · exact Or.inr rfl

theorem keywordTok_ne_dot {s : String} {k : TokenType} (h : keywordTok s = some k) :
    k ≠ .T_DOT := by
  unfold keywordTok at h
  rcases hf : keywordList.find? (fun p => p.1 = s) with _ | p
  · rw [hf] at h; simp at h
  · rw [hf] at h
    simp only [Option.map_some'] at h
    have hmem := List.mem_of_find?_eq_some hf
    injection h with h2
    rw [← h2]
    simp only [keywordList, List.mem_cons, List.not_mem_nil, or_false] at hmem
    rcases hmem with rfl | rfl | rfl | rfl | rfl | rfl | rfl | rfl | rfl | rfl | rfl |
      rfl <;> decide

theorem keywordTokV1_ne_dot {s : String} {k : TokenType} (h : keywordTokV1 s = some k) :
    k ≠ .T_DOT := by
  unfold keywordTokV1 at h
  rcases hf : keywordListV1.find? (fun p => p.1 = s) with _ | p
  · rw [hf] at h; simp at h
  · rw [hf] at h
    simp only [Option.map_some'] at h
    have hmem := List.mem_of_find?_eq_some hf
    injection h with h2
    rw [← h2]
    simp only [keywordListV1, List.mem_cons, List.not_mem_nil, or_false] at hmem
    rcases hmem with rfl | rfl | rfl | rfl | rfl | rfl | rfl | rfl | rfl | rfl <;> decide

theorem applyKeywords_type_ne_dot {kw : String → Option TokenType}
    (hkw : ∀ s k, kw s = some k → k ≠ .T_DOT) {t : Token} {lx : Lexer}
    (ht : t.type ≠ .T_DOT) : (applyKeywords kw t lx).1.type ≠ .T_DOT := by
  unfold applyKeywords
  rcases t with ⟨tt, txt⟩
  cases tt <;> cases txt <;> try exact ht
  rename_i s
  rcases hk : kw s with _ | k
  · simp only [hk]; exact ht
  · simp only [hk]; exact hkw _ _ hk

theorem nextTokenF_ne_dot : ∀ (fuel : Nat) (lx : Lexer) (r : Token × Lexer),
    nextTokenF fuel lx = some r → r.1.type ≠ .T_DOT := by
  intro fuel lx r h
  unfold nextTokenF at h
  rcases hskip : ntSkipF fuel lx with _ | res
  · rw [hskip] at h; simp at h
  · rw [hskip] at h
    rcases res with ⟨t, lx1⟩ | lx1
    · simp only [Option.some.injEq] at h
      rw [← h]
      show t.type ≠ .T_DOT
      rw [ntSkipF_inl_newline fuel lx t lx1 hskip]
      decide
    · dsimp only at h
      by_cases h1 : peekc lx1 = nulChar
      · rw [if_pos h1] at h
        simp only [Option.some.injEq] at h; rw [← h]; simp
      rw [if_neg h1] at h
      by_cases h2 : peekc lx1 = '"'
      · rw [if_pos h2] at h
        rw [lexStringF_type h]; decide
      rw [if_neg h2] at h
      by_cases h3 : isAlphaC (peekc lx1) ∨ peekc lx1 = '_'
      · rw [if_pos h3] at h
        rcases hident : lexIdentOrNumberF fuel lx1 with _ | tl
        · rw [hident] at h; simp at h
        · rcases tl with ⟨t2, lx2⟩
          rw [hident] at h
          dsimp only at h
          simp only [Option.some.injEq] at h
          rw [← h]
          refine applyKeywords_type_ne_dot (fun s k hk => keywordTok_ne_dot hk) ?_
          rcases lexIdentOrNumberF_types hident with ht2 | ht2 <;> (rw [ht2]; decide)
      rw [if_neg h3] at h
      by_cases h4 : isDigitC (peekc lx1) ∨ peekc lx1 = '.'
      · rw [if_pos h4] at h
        rcases lexIdentOrNumberF_types h with ht2 | ht2 <;> (rw [ht2]; decide)
      rw [if_neg h4] at h
      by_cases h5 : peekc lx1 = '.'
      · exact absurd (Or.inr h5) h4
      rw [if_neg h5] at h
      by_cases h6 : peekc lx1 = '('
      · rw [if_pos h6] at h
        simp only [Option.some.injEq] at h; rw [← h]; simp
      rw [if_neg h6] at h
      by_cases h7 : peekc lx1 = ')'
      · rw [if_pos h7] at h
        simp only [Option.some.injEq] at h; rw [← h]; simp
      rw [if_neg h7] at h
      by_cases h8 : peekc lx1 = '{'
      · rw [if_pos h8] at h
        simp only [Option.some.injEq] at h; rw [← h]; simp
      rw [if_neg h8] at h
      by_cases h9 : peekc lx1 = '}'
      · rw [if_pos h9] at h
        simp only [Option.some.injEq] at h; rw [← h]; simp
      rw [if_neg h9] at h
      by_cases h10 : peekc lx1 = ','
      · rw [if_pos h10] at h
        simp only [Option.some.injEq] at h; rw [← h]; simp
      rw [if_neg h10] at h
      by_cases h11 : peekc lx1 = '+'
      · rw [if_pos h11] at h
        simp only [Option.some.injEq] at h; rw [← h]; simp
      rw [if_neg h11] at h
      by_cases h12 : peekc lx1 = '-'
      · rw [if_pos h12] at h
        simp only [Option.some.injEq] at h; rw [← h]; simp
      rw [if_neg h12] at h
      by_cases h13 : peekc lx1 = '*'
      · rw [if_pos h13] at h
        simp only [Option.some.injEq] at h; rw [← h]; simp
      rw [if_neg h13] at h
      by_cases h14 : peekc lx1 = '/'
      · rw [if_pos h14] at h
        simp only [Option.some.injEq] at h; rw [← h]; simp
      rw [if_neg h14] at h
      by_cases h15 : peekc lx1 = '%'
      · rw [if_pos h15] at h
        simp only [Option.some.injEq] at h; rw [← h]; simp
      rw [if_neg h15] at h
      by_cases h16 : peekc lx1 = '<'
      · rw [if_pos h16] at h
        split_ifs at h <;> (simp only [Option.some.injEq] at h; rw [← h]; simp)
      rw [if_neg h16] at h
      by_cases h17 : peekc lx1 = '>'
      · rw [if_pos h17] at h
        split_ifs at h <;> (simp only [Option.some.injEq] at h; rw [← h]; simp)
      rw [if_neg h17] at h
      by_cases h18 : peekc lx1 = '='
      · rw [if_pos h18] at h
        split_ifs at h <;> (simp only [Option.some.injEq] at h; rw [← h]; simp)
      rw [if_neg h18] at h
      by_cases h19 : peekc lx1 = '!'
      · rw [if_pos h19] at h
        split_ifs at h <;> (simp only [Option.some.injEq] at h; rw [← h]; simp)
      rw [if_neg h19] at h
      simp only [Option.some.injEq] at h; rw [← h]; simp

theorem nextTokenV1F_ne_dot : ∀ (fuel : Nat) (lx : Lexer) (r : Token × Lexer),
    nextTokenV1F fuel lx = some r → r.1.type ≠ .T_DOT := by
  intro fuel lx r h
  unfold nextTokenV1F at h
  rcases hskip : ntSkipF fuel lx with _ | res
  · rw [hskip] at h; simp at h
  · rw [hskip] at h
    rcases res with ⟨t, lx1⟩ | lx1
    · simp only [Option.some.injEq] at h
      rw [← h]
      show t.type ≠ .T_DOT
      rw [ntSkipF_inl_newline fuel lx t lx1 hskip]
      decide
    · dsimp only at h
      by_cases h1 : peekc lx1 = nulChar
      · rw [if_pos h1] at h
        simp only [Option.some.injEq] at h; rw [← h]; simp
      rw [if_neg h1] at h
      by_cases h2 : peekc lx1 = '"'
      · rw [if_pos h2] at h
        rw [lexStringF_type h]; decide
      rw [if_neg h2] at h
      by_cases h3 : isAlphaC (peekc lx1) ∨ peekc lx1 = '_'
      · rw [if_pos h3] at h
        rcases hident : lexIdentOrNumberF fuel lx1 with _ | tl
        · rw [hident] at h; simp at h
        · rcases tl with ⟨t2, lx2⟩
          rw [hident] at h
          dsimp only at h
          simp only [Option.some.injEq] at h
          rw [← h]
          refine applyKeywords_type_ne_dot (fun s k hk => keywordTokV1_ne_dot hk) ?_
          rcases lexIdentOrNumberF_types hident with ht2 | ht2 <;> (rw [ht2]; decide)
      rw [if_neg h3] at h
      by_cases h4 : isDigitC (peekc lx1) ∨ peekc lx1 = '.'
      · rw [if_pos h4] at h
        rcases lexIdentOrNumberF_types h with ht2 | ht2 <;> (rw [ht2]; decide)
      rw [if_neg h4] at h
      by_cases h5 : peekc lx1 = '.'
      · exact absurd (Or.inr h5) h4
      rw [if_neg h5] at h
      by_cases h6 : peekc lx1 = '('
      · rw [if_pos h6] at h
        simp only [Option.some.injEq] at h; rw [← h]; simp
      rw [if_neg h6] at h
      by_cases h7 : peekc lx1 = ')'
      · rw [if_pos h7] at h
        simp only [Option.some.injEq] at h; rw [← h]; simp
      rw [if_neg h7] at h
      by_cases h11 : peekc lx1 = '+'
      · rw [if_pos h11] at h
        simp only [Option.some.injEq] at h; rw [← h]; simp
      rw [if_neg h11] at h
      by_cases h12 : peekc lx1 = '-'
      · rw [if_pos h12] at h
        simp only [Option.some.injEq] at h; rw [← h]; simp
      rw [if_neg h12] at h
      by_cases h13 : peekc lx1 = '*'
      · rw [if_pos h13] at h
        simp only [Option.some.injEq] at h; rw [← h]; simp
      rw [if_neg h13] at h
      by_cases h14 : peekc lx1 = '/'
      · rw [if_pos h14] at h
        simp only [Option.some.injEq] at h; rw [← h]; simp
      rw [if_neg h14] at h
      by_cases h15 : peekc lx1 = '%'
      · rw [if_pos h15] at h
        simp only [Option.some.injEq] at h; rw [← h]; simp
      rw [if_neg h15] at h
      by_cases h16 : peekc lx1 = '<'
      · rw [if_pos h16] at h
        split_ifs at h <;> (simp only [Option.some.injEq] at h; rw [← h]; simp)
      rw [if_neg h16] at h
      by_cases h17 : peekc lx1 = '>'
      · rw [if_pos h17] at h
        split_ifs at h <;> (simp only [Option.some.injEq] at h; rw [← h]; simp)
      rw [if_neg h17] at h
      by_cases h18 : peekc lx1 = '='
      · rw [if_pos h18] at h
        split_ifs at h <;> (simp only [Option.some.injEq] at h; rw [← h]; simp)
      rw [if_neg h18] at h
      by_cases h19 : peekc lx1 = '!'
      · rw [if_pos h19] at h
        split_ifs at h <;> (simp only [Option.some.injEq] at h; rw [← h]; simp)
      rw [if_neg h19] at h
      simp only [Option.some.injEq] at h; rw [← h]; simp


/-- C6: in both revisions the lexer never emits a `T_DOT` token: the
`isdigit(c) || c == '.'` dispatch precedes the literal `'.'` case of
`next_token`, so every `'.'` outside strings and comments is absorbed
into an identifier or number lexeme — and in particular a standalone
`'.'` lexes as a `T_NUMBER` token whose text is `"."` (value 0), not as
`T_DOT`, so the parser's `T_DOT` branches are unreachable. -/
theorem C6_lexer_never_emits_dot :
    (∀ (fuel : Nat) (lx : Lexer),
      (nextTokenF fuel lx).map (fun r => r.1.type) ≠ some TokenType.T_DOT) ∧
    (∀ (fuel : Nat) (lx : Lexer),
      (nextTokenV1F fuel lx).map (fun r => r.1.type) ≠ some TokenType.T_DOT) ∧
    nextToken ⟨['.'], 0, 1⟩ = some (⟨.T_NUMBER, some "."⟩, ⟨['.'], 1, 1⟩) := by
  refine ⟨fun fuel lx => ?_, fun fuel lx => ?_, by decide⟩
  · rcases ho : nextTokenF fuel lx with _ | r
    · simp
    · simp only [Option.map_some', ne_eq, Option.some.injEq]
      exact nextTokenF_ne_dot fuel lx r ho
  · rcases ho : nextTokenV1F fuel lx with _ | r
    · simp
    · simp only [Option.map_some', ne_eq, Option.some.injEq]
      exact nextTokenV1F_ne_dot fuel lx r ho

/-- C10: the lexer is total — every `next_token` call terminates (the fuel
bound `length + 1` always suffices, never falling into the out-of-fuel
`none`), and for every input byte sequence the resulting token stream is
a finite list ending in exactly one end-of-input token: the last token is
`T_EOF` and no earlier token is. -/
theorem C10_lexer_totality :
    (∀ lx : Lexer, ∃ t lx', nextToken lx = some (t, lx')) ∧
    (∀ src : List Char, ∃ pre last, tokenize src = some (pre ++ [last]) ∧
      last.type = .T_EOF ∧ ∀ t ∈ pre, t.type ≠ .T_EOF) := by
  constructor
  · intro lx
    obtain ⟨t, lx', he, _⟩ := nextToken_spec lx
    exact ⟨t, lx', he⟩
  · intro src
    exact tokenizeF_spec (src.length + 1) ⟨src, 0, 1⟩ (by simp)

/-- C9 counterexample: a carriage return *alone* produces a `T_NEWLINE`
token but does **not** advance the line counter — on the one-byte input
`"\r"`, starting at line 1, the lexer returns the newline token with the
line counter still 1 (the claim asserts it would advance by one;
`getc_l` only increments the counter on a line feed). -/
theorem C9_bare_cr_keeps_line_counter :
    nextToken ⟨['\r'], 0, 1⟩ = some (⟨.T_NEWLINE, none⟩, ⟨['\r'], 1, 1⟩) := by decide

/-- C9 (amended): a line feed alone and the pair CR LF each produce
exactly one `T_NEWLINE` token and advance the line counter by one, while
a carriage return alone produces exactly one `T_NEWLINE` token and
leaves the line counter unchanged. -/
theorem C9_newline_handling (lx : Lexer) :
    (peekc lx = '\n' →
      nextToken lx = some (⟨.T_NEWLINE, none⟩,
        { lx with pos := lx.pos + 1, line := lx.line + 1 })) ∧
    (peekc lx = '\r' → lx.src.getD (lx.pos + 1) nulChar = '\n' →
      nextToken lx = some (⟨.T_NEWLINE, none⟩,
        { lx with pos := lx.pos + 2, line := lx.line + 1 })) ∧
    (peekc lx = '\r' → lx.src.getD (lx.pos + 1) nulChar ≠ '\n' →
      nextToken lx = some (⟨.T_NEWLINE, none⟩, { lx with pos := lx.pos + 1 })) := by
  refine ⟨fun hlf => ?_, fun hcr hlf2 => ?_, fun hcr hlf2 => ?_⟩
  · have c1 : ¬(peekc lx = nulChar) := by rw [hlf]; decide
    have e0 : (getcL lx).2 = { lx with pos := lx.pos + 1, line := lx.line + 1 } := by
      simp only [getcL]
      rw [if_pos c1, if_pos hlf]
    show nextTokenF (lx.src.length + 1) lx = _
    simp only [nextTokenF, ntSkipF]
    rw [if_neg c1]
    rw [if_neg (show ¬(peekc lx = ' ' ∨ peekc lx = '\t') from by rw [hlf]; decide)]
    rw [if_neg (show ¬(peekc lx = '\r') from by rw [hlf]; decide)]
    rw [if_pos hlf, e0]
  · have c1 : ¬(peekc lx = nulChar) := by rw [hcr]; decide
    have hln : ¬(peekc lx = '\n') := by rw [hcr]; decide
    have e1 : (getcL lx).2 = { lx with pos := lx.pos + 1 } := by
      simp only [getcL]
      rw [if_pos c1, if_neg hln]
    have hpk : peekc { lx with pos := lx.pos + 1 } = '\n' := hlf2
    have e2 : (getcL (getcL lx).2).2 =
        { lx with pos := lx.pos + 2, line := lx.line + 1 } := by
      rw [e1]
      simp only [getcL]
      rw [if_pos (show ¬(peekc { lx with pos := lx.pos + 1 } = nulChar) from by
        rw [hpk]; decide)]
      rw [if_pos hpk]
    have h2 : peekc (getcL lx).2 = '\n' := by rw [e1]; exact hpk
    show nextTokenF (lx.src.length + 1) lx = _
    simp only [nextTokenF, ntSkipF]
    rw [if_neg c1]
    rw [if_neg (show ¬(peekc lx = ' ' ∨ peekc lx = '\t') from by rw [hcr]; decide)]
    rw [if_pos hcr, if_pos h2, e2]
  · have c1 : ¬(peekc lx = nulChar) := by rw [hcr]; decide
    have hln : ¬(peekc lx = '\n') := by rw [hcr]; decide
    have e1 : (getcL lx).2 = { lx with pos := lx.pos + 1 } := by
      simp only [getcL]
      rw [if_pos c1, if_neg hln]
    have h2 : ¬(peekc (getcL lx).2 = '\n') := by rw [e1]; exact hlf2
    show nextTokenF (lx.src.length + 1) lx = _
    simp only [nextTokenF, ntSkipF]
    rw [if_neg c1]
    rw [if_neg (show ¬(peekc lx = ' ' ∨ peekc lx = '\t') from by rw [hcr]; decide)]
    rw [if_pos hcr, if_neg h2, e1]

/-- C2 (code bug): `push_scope` links the fresh scope to the *caller's
current scope*, not to the Global scope, so variable lookup inside a
callee walks into its dynamic caller's locals.  Failing input: `g` reads
`y`, which is a local of its caller `f` and bound nowhere else; the
specified semantics (fresh scope whose parent is Global) requires an
undefined-variable error, but the interpreter finds `f`'s local through
the parent chain and prints `5`. -/
theorem C2_callee_sees_callers_locals :
    runProgram 100
      "function g() \x7b return y \x7d\nfunction f() \x7b set y to 5\nreturn g() \x7d\nprint f()" =
      Except.ok ["5"] := by decide

/-- C5 (code bug): scenario S1 (`set a to 2 + 3 * 4.` then `print a.`)
does not print `14`: because `lex_ident_or_number` absorbs `.` into the
preceding identifier, `print a.` reads the variable `"a."`, which is
unbound, and the run aborts with an undefined-variable error.  The
second conjunct isolates the failure to the `.` terminator: without the
trailing dot the program prints exactly `14`, confirming that `*` binds
tighter than `+`. -/
theorem C5_s1_scenario_aborts :
    runProgram 100 "set a to 2 + 3 * 4.\nprint a." = Except.error (Err.undefVar "a.") ∧
    runProgram 100 "set a to 2 + 3 * 4.\nprint a" = Except.ok ["14"] :=
  ⟨by decide, by decide⟩

/-- C8 counterexample: in the first revision (`easylang.c`) the `T_DIV`
arm of `eval_expr` divides without testing the divisor, so `1 / 0`
yields a `VAL_NUM` value (an IEEE infinity in C) instead of raising a
runtime error — that revision's `eval_expr` has no error path at all.
This refutes the claim's "in either source revision". -/
theorem C8_v1_div_by_zero_yields_value :
    (evalExprV1 []
      (.exprBinary .T_DIV (.exprNumber (Q.ofInt 1)) (.exprNumber Q.zero))).isNum = true := by
  decide

/-- C8 (amended): in the second revision, whenever both operands of `/`
evaluate to numbers and the right operand is zero, evaluation aborts
with the division-by-zero runtime error and never yields a value. -/
theorem C8_v2_div_by_zero_is_error (fuel : Nat) (el er : Node) (st st1 st2 : EvalState)
    (a b : Q) (hl : evalExpr fuel el st = .ok (.vnum a, st1))
    (hr : evalExpr fuel er st1 = .ok (.vnum b, st2)) (hb : b.isZero = true) :
    evalExpr (fuel+1) (.exprBinary .T_DIV el er) st = .error .divisionByZero := by
  simp only [evalExpr, hl, hr, Bind.bind, Except.bind, evalBinary, hb]
  simp

/-- C8 witness: `1 / 0` at a concrete state. -/
theorem C8_v2_div_by_zero_is_error_witness :
    evalExpr 2 (.exprBinary .T_DIV (.exprNumber (Q.ofInt 1)) (.exprNumber Q.zero))
      ⟨[⟨[]⟩], [], [], []⟩ = .error .divisionByZero :=
  C8_v2_div_by_zero_is_error 1 _ _ _ _ _ (Q.ofInt 1) Q.zero rfl rfl rfl

/-- C7: for the binary `+`, a Number/String operand pair in either order
is coerced to strings — the number through the `%g` formatter — and
concatenated in operand order; two Numbers add numerically. -/
theorem C7_plus_string_coercion (fuel : Nat) (el er : Node) (st st1 st2 : EvalState) :
    (∀ n s, evalExpr fuel el st = .ok (.vnum n, st1) →
      evalExpr fuel er st1 = .ok (.vstr s, st2) →
      evalExpr (fuel+1) (.exprBinary .T_PLUS el er) st = .ok (.vstr (fmtG n ++ s), st2)) ∧
    (∀ s n, evalExpr fuel el st = .ok (.vstr s, st1) →
      evalExpr fuel er st1 = .ok (.vnum n, st2) →
      evalExpr (fuel+1) (.exprBinary .T_PLUS el er) st = .ok (.vstr (s ++ fmtG n), st2)) ∧
    (∀ n m, evalExpr fuel el st = .ok (.vnum n, st1) →
      evalExpr fuel er st1 = .ok (.vnum m, st2) →
      evalExpr (fuel+1) (.exprBinary .T_PLUS el er) st = .ok (.vnum (n.add m), st2)) := by
  refine ⟨fun n s hl hr => ?_, fun s n hl hr => ?_, fun n m hl hr => ?_⟩ <;>
    simp only [evalExpr, hl, hr, Bind.bind, Except.bind, evalBinary, concatStr,
      Value.numField, Value.isStr] <;> simp

/-- C7 witness: `42 + "x"`, `"x" + 42` and `40 + 2` at a concrete state,
with the `%g` rendering of `42` evaluated. -/
theorem C7_plus_string_coercion_witness :
    evalExpr 2 (.exprBinary .T_PLUS (.exprNumber (Q.ofInt 42)) (.exprString "x"))
      ⟨[⟨[]⟩], [], [], []⟩ =
      .ok (.vstr (fmtG (Q.ofInt 42) ++ "x"), ⟨[⟨[]⟩], [], [], []⟩) ∧
    evalExpr 2 (.exprBinary .T_PLUS (.exprString "x") (.exprNumber (Q.ofInt 42)))
      ⟨[⟨[]⟩], [], [], []⟩ =
      .ok (.vstr ("x" ++ fmtG (Q.ofInt 42)), ⟨[⟨[]⟩], [], [], []⟩) ∧
    evalExpr 2 (.exprBinary .T_PLUS (.exprNumber (Q.ofInt 40)) (.exprNumber (Q.ofInt 2)))
      ⟨[⟨[]⟩], [], [], []⟩ =
      .ok (.vnum ((Q.ofInt 40).add (Q.ofInt 2)), ⟨[⟨[]⟩], [], [], []⟩) ∧
    fmtG (Q.ofInt 42) ++ "x" = "42x" ∧ (Q.ofInt 40).add (Q.ofInt 2) = ⟨42, 1⟩ :=
  ⟨(C7_plus_string_coercion 1 _ _ _ _ _).1 (Q.ofInt 42) "x" rfl rfl,
   (C7_plus_string_coercion 1 _ _ _ _ _).2.1 "x" (Q.ofInt 42) rfl rfl,
   (C7_plus_string_coercion 1 _ _ _ _ _).2.2 (Q.ofInt 40) (Q.ofInt 2) rfl rfl,
   by decide, by decide⟩

/-- C1: arguments of a call are evaluated in the caller's current scope
before the fresh scope is pushed, so a call `f(x)` binds the parameter to
the *caller's* value of `x` even when the callee's parameter bears any
name `p` — including `p = x` itself, the shadowing case: for a function
`f(p) { return p }` and any caller state in which `x` is bound to `v`,
`f(x)` returns exactly `v` and leaves the state unchanged. -/
theorem C1_arguments_evaluated_in_caller_scope (fuel : Nat) (st : EvalState)
    (fname x p : String) (v : Value)
    (hf : funcGet st fname = some ([p], .stmtList [.stmtReturn (some (.exprVar p))]))
    (hv : varGet st x = some v) :
    evalExpr (fuel+5) (.exprCall fname [.exprVar x]) st = .ok (v, st) := by
  have harg : evalExpr (fuel+3) (.exprVar x) st = .ok (v, st) := by
    simp only [evalExpr, hv]
  have hargs : evalArgs (fuel+4) [.exprVar x] st = .ok ([v], st) := by
    simp only [evalArgs, harg, Bind.bind, Except.bind]
  have hpush : bindParams [p] [v] (pushScope st) =
      { st with scopes := ⟨[(p, v)]⟩ :: st.scopes } := rfl
  have hvg2 : varGet { st with scopes := ⟨[(p, v)]⟩ :: st.scopes } p = some v := by
    simp [varGet, chainFind, scopeFind, List.find?]
  have hretexpr : evalExpr (fuel+1) (.exprVar p)
      { st with scopes := ⟨[(p, v)]⟩ :: st.scopes } =
      .ok (v, { st with scopes := ⟨[(p, v)]⟩ :: st.scopes }) := by
    simp only [evalExpr, hvg2]
  have hret : evalStmt (fuel+2) (.stmtReturn (some (.exprVar p)))
      { st with scopes := ⟨[(p, v)]⟩ :: st.scopes } ⟨false, .vnone⟩ =
      .ok (v, { st with scopes := ⟨[(p, v)]⟩ :: st.scopes }, ⟨true, v⟩) := by
    simp only [evalStmt, hretexpr, Bind.bind, Except.bind]
    simp
  have hlist : evalStmtList (fuel+3) [.stmtReturn (some (.exprVar p))] .vnone
      { st with scopes := ⟨[(p, v)]⟩ :: st.scopes } ⟨false, .vnone⟩ =
      .ok (v, { st with scopes := ⟨[(p, v)]⟩ :: st.scopes }, ⟨true, v⟩) := by
    simp only [evalStmtList, hret, Bind.bind, Except.bind]
    simp
  have hbody : evalStmt (fuel+4) (.stmtList [.stmtReturn (some (.exprVar p))])
      { st with scopes := ⟨[(p, v)]⟩ :: st.scopes } ⟨false, .vnone⟩ =
      .ok (v, { st with scopes := ⟨[(p, v)]⟩ :: st.scopes }, ⟨true, v⟩) := by
    simp only [evalStmt, hlist]
    simp
  simp only [evalExpr, hf, hargs, hpush, hbody, Bind.bind, Except.bind]
  simp [popScope]

/-- C1 witness: `f(x)` where `f`'s parameter is also named `x` and the
caller binds `x` to `4` — the call yields the caller's `4`. -/
theorem C1_arguments_evaluated_in_caller_scope_witness :
    evalExpr 5 (.exprCall "f" [.exprVar "x"])
      ⟨[⟨[("x", .vnum (Q.ofInt 4))]⟩],
        [("f", (["x"], .stmtList [.stmtReturn (some (.exprVar "x"))]))], [], []⟩ =
      .ok (.vnum (Q.ofInt 4),
        ⟨[⟨[("x", .vnum (Q.ofInt 4))]⟩],
          [("f", (["x"], .stmtList [.stmtReturn (some (.exprVar "x"))]))], [], []⟩) :=
  C1_arguments_evaluated_in_caller_scope 0 _ "f" "x" "x" (.vnum (Q.ofInt 4)) rfl rfl

/-- C3: the `returned` signal set by a `Return` is honored immediately by
every enclosing construct: (1) a statement list stops at the first child
whose frame reports a return and yields the `return_val`; (2) a `While`
whose body sets the flag stops immediately and yields the `return_val`;
(3) end to end, a `return 42` nested inside `If` inside `While` inside a
function body terminates only that function — the call yields `42` and
the enclosing top-level program continues and prints `7`. -/
theorem C3_return_propagation :
    (∀ (fuel : Nat) (s : Node) (rest : List Node) (st : EvalState) (fr : Frame)
      (v : Value) (st' : EvalState) (fr' : Frame), fr.returned = false →
      evalStmt fuel s st fr = .ok (v, st', fr') → fr'.returned = true →
      evalStmt (fuel+2) (.stmtList (s :: rest)) st fr = .ok (fr'.returnVal, st', fr')) ∧
    (∀ (fuel : Nat) (cond body : Node) (st st1 : EvalState) (fr : Frame) (q : Q)
      (r : Value) (st2 : EvalState) (fr2 : Frame), fr.returned = false →
      evalExpr fuel cond st = .ok (.vnum q, st1) → q.isZero = false →
      evalStmt fuel body st1 fr = .ok (r, st2, fr2) → fr2.returned = true →
      evalStmt (fuel+2) (.stmtWhile cond body) st fr = .ok (fr2.returnVal, st2, fr2)) ∧
    runProgram 200
      "function f() \x7b while 1 do if 1 then return 42 end end \x7d\nprint f()\nprint 7" =
      Except.ok ["42", "7"] := by
  refine ⟨?_, ?_, by decide⟩
  · intro fuel s rest st fr v st' fr' hfr hs hret
    simp only [evalStmt, hfr, evalStmtList, hs, Bind.bind, Except.bind]
    simp [hret]
  · intro fuel cond body st st1 fr q r st2 fr2 hfr hcond hq hbody hret
    simp only [evalStmt, hfr, evalWhileLoop, hcond, Bind.bind, Except.bind, hq, hfr,
      hbody, hret]
    simp [hq, hfr, hret]

/-- C3 witness: (1) a list whose first child returns never reaches the
following `print`; (2) a `while 1` whose body returns stops at once. -/
theorem C3_return_propagation_witness :
    evalStmt 3 (.stmtList [.stmtReturn none, .stmtPrint (.exprString "NO")])
      ⟨[⟨[]⟩], [], [], []⟩ ⟨false, .vnone⟩ =
      .ok (.vnum Q.zero, ⟨[⟨[]⟩], [], [], []⟩, ⟨true, .vnum Q.zero⟩) ∧
    evalStmt 3 (.stmtWhile (.exprNumber (Q.ofInt 1)) (.stmtReturn none))
      ⟨[⟨[]⟩], [], [], []⟩ ⟨false, .vnone⟩ =
      .ok (.vnum Q.zero, ⟨[⟨[]⟩], [], [], []⟩, ⟨true, .vnum Q.zero⟩) :=
  ⟨C3_return_propagation.1 1 (.stmtReturn none) [.stmtPrint (.exprString "NO")]
      ⟨[⟨[]⟩], [], [], []⟩ ⟨false, .vnone⟩ (.vnum Q.zero) ⟨[⟨[]⟩], [], [], []⟩
      ⟨true, .vnum Q.zero⟩ rfl rfl rfl,
   C3_return_propagation.2.1 1 (.exprNumber (Q.ofInt 1)) (.stmtReturn none)
      ⟨[⟨[]⟩], [], [], []⟩ ⟨[⟨[]⟩], [], [], []⟩ ⟨false, .vnone⟩ (Q.ofInt 1)
      (.vnum Q.zero) ⟨[⟨[]⟩], [], [], []⟩ ⟨true, .vnum Q.zero⟩ rfl rfl rfl rfl rfl⟩

theorem varSet_scopes_shape (st : EvalState) (n : String) (v : Value) :
    (varSet st n v).scopes.length = st.scopes.length ∧
    (varSet st n v).scopes.tail = st.scopes.tail := by
  unfold varSet
  split
  next s rest heq => simp [heq]
  next heq => simp

theorem bindParams_scopes_shape :
    ∀ (ps : List String) (vs : List Value) (st : EvalState),
      (bindParams ps vs st).scopes.length = st.scopes.length ∧
      (bindParams ps vs st).scopes.tail = st.scopes.tail := by
  intro ps
  induction ps with
  | nil => intro vs st; simp [bindParams]
  | cons pn ps ih =>
    intro vs st
    cases vs with
    | nil => simp [bindParams]
    | cons v vs =>
      have h1 := varSet_scopes_shape st pn v
      have h2 := ih vs (varSet st pn v)
      rw [show bindParams (pn :: ps) (v :: vs) st = bindParams ps vs (varSet st pn v)
        from rfl]
      exact ⟨h2.1.trans h1.1, h2.2.trans h1.2⟩

/-- Scope-shape preservation, proved for all five mutually recursive
evaluation functions at once: a successful expression evaluation leaves
the scope stack exactly as it was (every push is matched by the pop of
the same call), and a successful statement evaluation can touch only the
current (head) scope — the parents are returned unchanged. -/
theorem eval_scopes_shape : ∀ fuel : Nat,
    (∀ (n : Node) (st : EvalState) (v : Value) (st' : EvalState),
      evalExpr fuel n st = .ok (v, st') → st'.scopes = st.scopes) ∧
    (∀ (args : List Node) (st : EvalState) (vs : List Value) (st' : EvalState),
      evalArgs fuel args st = .ok (vs, st') → st'.scopes = st.scopes) ∧
    (∀ (n : Node) (st : EvalState) (fr : Frame) (v : Value) (st' : EvalState)
      (fr' : Frame), evalStmt fuel n st fr = .ok (v, st', fr') →
      st'.scopes.length = st.scopes.length ∧ st'.scopes.tail = st.scopes.tail) ∧
    (∀ (cs : List Node) (acc : Value) (st : EvalState) (fr : Frame) (v : Value)
      (st' : EvalState) (fr' : Frame),
      evalStmtList fuel cs acc st fr = .ok (v, st', fr') →
      st'.scopes.length = st.scopes.length ∧ st'.scopes.tail = st.scopes.tail) ∧
    (∀ (cond body : Node) (res : Value) (st : EvalState) (fr : Frame) (v : Value)
      (st' : EvalState) (fr' : Frame),
      evalWhileLoop fuel cond body res st fr = .ok (v, st', fr') →
      st'.scopes.length = st.scopes.length ∧ st'.scopes.tail = st.scopes.tail) := by
  intro fuel
  induction fuel with
  | zero =>
    refine ⟨?_, ?_, ?_, ?_, ?_⟩ <;> intros <;> rename_i h <;>
      simp [evalExpr, evalArgs, evalStmt, evalStmtList, evalWhileLoop] at h
  | succ fuel ih =>
    obtain ⟨ihE, ihA, ihS, ihL, ihW⟩ := ih
    have hExpr : ∀ (n : Node) (st : EvalState) (v : Value) (st' : EvalState),
        evalExpr (fuel+1) n st = .ok (v, st') → st'.scopes = st.scopes := by
      intro n st v st' h
      match n with
      | .exprNumber q =>
        simp only [evalExpr, Except.ok.injEq, Prod.mk.injEq] at h
        rw [← h.2]
      | .exprString s =>
        simp only [evalExpr, Except.ok.injEq, Prod.mk.injEq] at h
        rw [← h.2]
      | .exprVar name =>
        simp only [evalExpr] at h
        rcases hV : varGet st name with _ | v0 <;> rw [hV] at h
        · exact Except.noConfusion h
        · simp only [Except.ok.injEq, Prod.mk.injEq] at h
          rw [← h.2]
      | .exprCall name args =>
        simp only [evalExpr] at h
        rcases hF : funcGet st name with _ | pb <;> rw [hF] at h
        · exact Except.noConfusion h
        · rcases pb with ⟨params, body⟩
          dsimp only at h
          by_cases hAr : params.length ≠ args.length

          · rw [if_pos hAr] at h; exact Except.noConfusion h
          · rw [if_neg hAr] at h
            rcases hA : evalArgs fuel args st with e | av <;> rw [hA] at h <;>
              simp only [Bind.bind, Except.bind] at h
            · exact Except.noConfusion h
            · rcases av with ⟨argVals, st1⟩
              rcases hB : evalStmt fuel body (bindParams params argVals (pushScope st1))
                  ⟨false, .vnone⟩ with e | bv <;> rw [hB] at h <;>
                simp only [Bind.bind, Except.bind] at h
              · exact Except.noConfusion h
              · rcases bv with ⟨bodyRes, st3, fr'⟩
                have h1 : st1.scopes = st.scopes := ihA args st argVals st1 hA
                have h2 := ihS body (bindParams params argVals (pushScope st1))
                  ⟨false, .vnone⟩ bodyRes st3 fr' hB
                have h3 := bindParams_scopes_shape params argVals (pushScope st1)
                have htail : st3.scopes.tail = st1.scopes := by
                  rw [h2.2, h3.2]
                  rfl
                have hst' : st' = popScope st3 := by
                  by_cases hR : fr'.returned <;> simp [hR] at h <;> rw [← h.2]
                rw [hst']
                show st3.scopes.tail = st.scopes
                rw [htail, h1]
      | .exprBinary op l r =>
        simp only [evalExpr] at h
        rcases hL : evalExpr fuel l st with e | lv <;> rw [hL] at h <;>
          simp only [Bind.bind, Except.bind] at h
        · exact Except.noConfusion h
        · rcases lv with ⟨lv, st1⟩
          rcases hR : evalExpr fuel r st1 with e | rv <;> rw [hR] at h <;>
            simp only [Bind.bind, Except.bind] at h
          · exact Except.noConfusion h
          · rcases rv with ⟨rv, st2⟩
            rcases hBv : evalBinary op lv rv with e | bv <;> rw [hBv] at h <;>
              simp only [Bind.bind, Except.bind] at h
            · exact Except.noConfusion h
            · simp only [Except.ok.injEq, Prod.mk.injEq] at h
              rw [← h.2]
              rw [ihE r st1 rv st2 hR, ihE l st lv st1 hL]
      | .stmtList stmts =>
        simp only [evalExpr, Except.ok.injEq, Prod.mk.injEq] at h
        rw [← h.2]
      | .stmtSet a b =>
        simp only [evalExpr, Except.ok.injEq, Prod.mk.injEq] at h
        rw [← h.2]
      | .stmtPrint b =>
        simp only [evalExpr, Except.ok.injEq, Prod.mk.injEq] at h
        rw [← h.2]
      | .stmtRead a =>
        simp only [evalExpr, Except.ok.injEq, Prod.mk.injEq] at h
        rw [← h.2]
      | .stmtIf a b c =>
        simp only [evalExpr, Except.ok.injEq, Prod.mk.injEq] at h
        rw [← h.2]
      | .stmtWhile a b =>
        simp only [evalExpr, Except.ok.injEq, Prod.mk.injEq] at h
        rw [← h.2]
      | .stmtFuncDef a b c =>
        simp only [evalExpr, Except.ok.injEq, Prod.mk.injEq] at h
        rw [← h.2]
      | .stmtReturn a =>
        simp only [evalExpr, Except.ok.injEq, Prod.mk.injEq] at h
        rw [← h.2]
    have hArgs : ∀ (args : List Node) (st : EvalState) (vs : List Value)
        (st' : EvalState), evalArgs (fuel+1) args st = .ok (vs, st') →
        st'.scopes = st.scopes := by
      intro args st vs st' h
      match args with
      | [] =>
        simp only [evalArgs, Except.ok.injEq, Prod.mk.injEq] at h
        rw [← h.2]
      | a :: rest =>
        simp only [evalArgs] at h
        rcases hE : evalExpr fuel a st with e | v1 <;> rw [hE] at h <;>
          simp only [Bind.bind, Except.bind] at h
        · exact Except.noConfusion h
        · rcases v1 with ⟨v1, st1⟩
          rcases hR : evalArgs fuel rest st1 with e | vr <;> rw [hR] at h <;>
            simp only [Bind.bind, Except.bind] at h
          · exact Except.noConfusion h
          · rcases vr with ⟨vs1, st2⟩
            simp only [Except.ok.injEq, Prod.mk.injEq] at h
            rw [← h.2]
            rw [ihA rest st1 vs1 st2 hR, ihE a st v1 st1 hE]
    have hStmt : ∀ (n : Node) (st : EvalState) (fr : Frame) (v : Value)
        (st' : EvalState) (fr' : Frame), evalStmt (fuel+1) n st fr = .ok (v, st', fr') →
        st'.scopes.length = st.scopes.length ∧ st'.scopes.tail = st.scopes.tail := by
      intro n st fr v st' fr' h
      by_cases hFR : fr.returned
      · rw [show evalStmt (fuel+1) n st fr = .ok (fr.returnVal, st, fr) from by
          simp [evalStmt, hFR]] at h
        simp only [Except.ok.injEq, Prod.mk.injEq] at h
        rw [← h.2.1]
        exact ⟨rfl, rfl⟩
      · match n with
        | .stmtList stmts =>
          rw [show evalStmt (fuel+1) (.stmtList stmts) st fr =
            evalStmtList fuel stmts .vnone st fr from by simp [evalStmt, hFR]] at h
          exact ihL stmts .vnone st fr v st' fr' h
        | .stmtSet name body =>
          rw [show evalStmt (fuel+1) (.stmtSet name body) st fr =
            (do
              let r ← evalExpr fuel body st
              Except.ok (r.1, varSet r.2 name r.1, fr)) from by
            simp [evalStmt, hFR]] at h
          rcases hE : evalExpr fuel body st with e | v1 <;> rw [hE] at h <;>
            simp only [Bind.bind, Except.bind] at h
          · exact Except.noConfusion h
          · simp only [Except.ok.injEq, Prod.mk.injEq] at h
            rw [← h.2.1]
            have h1 := varSet_scopes_shape v1.2 name v1.1
            have h2 : v1.2.scopes = st.scopes := ihE body st v1.1 v1.2 (by
              rw [hE])
            rw [h2] at h1
            exact h1
        | .stmtPrint body =>
          rw [show evalStmt (fuel+1) (.stmtPrint body) st fr =
            (do
              let r ← evalExpr fuel body st
              Except.ok (Value.vnone,
                match r.1 with
                | .vnum q => { r.2 with output := r.2.output ++ [fmtG q] }
                | .vstr s => { r.2 with output := r.2.output ++ [s] }
                | .vnone => r.2, fr)) from by
            simp [evalStmt, hFR]] at h
          rcases hE : evalExpr fuel body st with e | v1 <;> rw [hE] at h <;>
            simp only [Bind.bind, Except.bind] at h
          · exact Except.noConfusion h
          · simp only [Except.ok.injEq, Prod.mk.injEq] at h
            have h2 : v1.2.scopes = st.scopes := ihE body st v1.1 v1.2 (by rw [hE])
            have hsc : st'.scopes = v1.2.scopes := by
              rw [← h.2.1]
              rcases v1 with ⟨v1v, v1s⟩
              cases v1v <;> rfl
            rw [hsc, h2]
            exact ⟨rfl, rfl⟩
        | .stmtRead name =>
          rw [show evalStmt (fuel+1) (.stmtRead name) st fr =
            (match st.input with
             | [] => .error .inputError
             | line :: rest =>
               .ok (readValue line,
                 varSet { st with input := rest } name (readValue line), fr)) from by
            simp [evalStmt, hFR]] at h
          rcases hI : st.input with _ | ⟨line, rest⟩ <;> rw [hI] at h
          · exact Except.noConfusion h
          · simp only [Except.ok.injEq, Prod.mk.injEq] at h
            rw [← h.2.1]
            exact varSet_scopes_shape { st with input := rest } name (readValue line)
        | .stmtIf cond body elseBody =>
          rcases elseBody with _ | eb
          · rw [show evalStmt (fuel+1) (.stmtIf cond body none) st fr =
              (do
                let r ← evalExpr fuel cond st
                match r.1 with
                | .vnum q =>
                  if !q.isZero then evalStmt fuel body r.2 fr
                  else .ok (.vnone, r.2, fr)
                | _ => .error .condNotNumeric) from by
              simp [evalStmt, hFR]] at h
            rcases hE : evalExpr fuel cond st with e | v1 <;> rw [hE] at h <;>
              simp only [Bind.bind, Except.bind] at h
            · exact Except.noConfusion h
            · have h2 : v1.2.scopes = st.scopes := ihE cond st v1.1 v1.2 (by rw [hE])
              rcases v1 with ⟨cv, st1⟩
              rcases cv with q | s | _
              · dsimp only at h
                by_cases hz : !q.isZero
                · rw [if_pos hz] at h
                  have := ihS body st1 fr v st' fr' h
                  rw [h2] at this
                  exact this
                · rw [if_neg hz] at h
                  simp only [Except.ok.injEq, Prod.mk.injEq] at h
                  rw [← h.2.1]
                  rw [show (st1 : EvalState).scopes = st.scopes from h2]
                  exact ⟨rfl, rfl⟩
              · exact Except.noConfusion h
              · exact Except.noConfusion h
          · rw [show evalStmt (fuel+1) (.stmtIf cond body (some eb)) st fr =
              (do
                let r ← evalExpr fuel cond st
                match r.1 with
                | .vnum q =>
                  if !q.isZero then evalStmt fuel body r.2 fr
                  else evalStmt fuel eb r.2 fr
                | _ => .error .condNotNumeric) from by
              simp [evalStmt, hFR]] at h
            rcases hE : evalExpr fuel cond st with e | v1 <;> rw [hE] at h <;>
              simp only [Bind.bind, Except.bind] at h
            · exact Except.noConfusion h
            · have h2 : v1.2.scopes = st.scopes := ihE cond st v1.1 v1.2 (by rw [hE])
              rcases v1 with ⟨cv, st1⟩
              rcases cv with q | s | _
              · dsimp only at h
                by_cases hz : !q.isZero
                · rw [if_pos hz] at h
                  have := ihS body st1 fr v st' fr' h
                  rw [h2] at this
                  exact this
                · rw [if_neg hz] at h
                  have := ihS eb st1 fr v st' fr' h
                  rw [h2] at this
                  exact this
              · exact Except.noConfusion h
              · exact Except.noConfusion h
        | .stmtWhile cond body =>
          rw [show evalStmt (fuel+1) (.stmtWhile cond body) st fr =
            evalWhileLoop fuel cond body .vnone st fr from by simp [evalStmt, hFR]] at h
          exact ihW cond body .vnone st fr v st' fr' h
        | .stmtFuncDef name params body =>
          rw [show evalStmt (fuel+1) (.stmtFuncDef name params body) st fr =
            (if (funcGet st name).isSome then .error (.dupFunc name)
             else .ok (.vnone,
               { st with funcs := st.funcs ++ [(name, (params, body))] }, fr)) from by
            simp [evalStmt, hFR]] at h
          by_cases hD : (funcGet st name).isSome
          · rw [if_pos hD] at h; exact Except.noConfusion h
          · rw [if_neg hD] at h
            simp only [Except.ok.injEq, Prod.mk.injEq] at h
            rw [← h.2.1]
            exact ⟨rfl, rfl⟩
        | .stmtReturn bodyOpt =>
          rcases bodyOpt with _ | b
          · rw [show evalStmt (fuel+1) (.stmtReturn none) st fr =
              .ok (.vnum Q.zero, st, ⟨true, .vnum Q.zero⟩) from by
              simp [evalStmt, hFR]] at h
            simp only [Except.ok.injEq, Prod.mk.injEq] at h
            rw [← h.2.1]
            exact ⟨rfl, rfl⟩
          · rw [show evalStmt (fuel+1) (.stmtReturn (some b)) st fr =
              (do
                let r ← evalExpr fuel b st
                Except.ok (r.1, r.2, (⟨true, r.1⟩ : Frame))) from by
              simp [evalStmt, hFR]] at h
            rcases hE : evalExpr fuel b st with e | v1 <;> rw [hE] at h <;>
              simp only [Bind.bind, Except.bind] at h
            · exact Except.noConfusion h
            · simp only [Except.ok.injEq, Prod.mk.injEq] at h
              rw [← h.2.1]
              rw [show v1.2.scopes = st.scopes from ihE b st v1.1 v1.2 (by rw [hE])]
              exact ⟨rfl, rfl⟩
        | .exprNumber q =>
          rw [show evalStmt (fuel+1) (.exprNumber q) st fr = .ok (.vnone, st, fr) from by
            simp [evalStmt, hFR]] at h
          simp only [Except.ok.injEq, Prod.mk.injEq] at h
          rw [← h.2.1]; exact ⟨rfl, rfl⟩
        | .exprString s =>
          rw [show evalStmt (fuel+1) (.exprString s) st fr = .ok (.vnone, st, fr) from by
            simp [evalStmt, hFR]] at h
          simp only [Except.ok.injEq, Prod.mk.injEq] at h
          rw [← h.2.1]; exact ⟨rfl, rfl⟩
        | .exprVar a =>
          rw [show evalStmt (fuel+1) (.exprVar a) st fr = .ok (.vnone, st, fr) from by
            simp [evalStmt, hFR]] at h
          simp only [Except.ok.injEq, Prod.mk.injEq] at h
          rw [← h.2.1]; exact ⟨rfl, rfl⟩
        | .exprCall a b =>
          rw [show evalStmt (fuel+1) (.exprCall a b) st fr = .ok (.vnone, st, fr) from by
            simp [evalStmt, hFR]] at h
          simp only [Except.ok.injEq, Prod.mk.injEq] at h
          rw [← h.2.1]; exact ⟨rfl, rfl⟩
        | .exprBinary a b c =>
          rw [show evalStmt (fuel+1) (.exprBinary a b c) st fr =
            .ok (.vnone, st, fr) from by simp [evalStmt, hFR]] at h
          simp only [Except.ok.injEq, Prod.mk.injEq] at h
          rw [← h.2.1]; exact ⟨rfl, rfl⟩
    refine ⟨hExpr, hArgs, hStmt, ?_, ?_⟩
    · intro cs acc st fr v st' fr' h
      match cs with
      | [] =>
        simp only [evalStmtList, Except.ok.injEq, Prod.mk.injEq] at h
        rw [← h.2.1]
        exact ⟨rfl, rfl⟩
      | c :: rest =>
        simp only [evalStmtList] at h
        rcases hS : evalStmt fuel c st fr with e | v1 <;> rw [hS] at h <;>
          simp only [Bind.bind, Except.bind] at h
        · exact Except.noConfusion h
        · rcases v1 with ⟨v1, st1, fr1⟩
          have hsh := ihS c st fr v1 st1 fr1 hS
          by_cases hR : fr1.returned
          · simp only [hR, if_true] at h
            simp only [Except.ok.injEq, Prod.mk.injEq] at h
            rw [← h.2.1]
            exact hsh
          · simp only [hR, if_false] at h
            have := ihL rest v1 st1 fr1 v st' fr' h
            exact ⟨this.1.trans hsh.1, this.2.trans hsh.2⟩
    · intro cond body res st fr v st' fr' h
      simp only [evalWhileLoop] at h
      rcases hE : evalExpr fuel cond st with e | v1 <;> rw [hE] at h <;>
        simp only [Bind.bind, Except.bind] at h
      · exact Except.noConfusion h
      · have h2 : v1.2.scopes = st.scopes := ihE cond st v1.1 v1.2 (by rw [hE])
        rcases v1 with ⟨cv, st1⟩
        rcases cv with q | s | _
        · dsimp only at h
          by_cases hz : q.isZero ∨ fr.returned
          · rw [if_pos hz] at h
            simp only [Except.ok.injEq, Prod.mk.injEq] at h
            rw [← h.2.1]
            rw [show (st1 : EvalState).scopes = st.scopes from h2]
            exact ⟨rfl, rfl⟩
          · rw [if_neg hz] at h
            rcases hB : evalStmt fuel body st1 fr with e | v2 <;> rw [hB] at h <;>
              simp only [Bind.bind, Except.bind] at h
            · exact Except.noConfusion h
            · rcases v2 with ⟨r1, st2, fr2⟩
              have hsh := ihS body st1 fr r1 st2 fr2 hB
              rw [h2] at hsh
              by_cases hR : fr2.returned
              · simp only [hR, if_true] at h
                simp only [Except.ok.injEq, Prod.mk.injEq] at h
                rw [← h.2.1]
                exact hsh
              · simp only [hR, if_false] at h
                have := ihW cond body r1 st2 fr2 v st' fr' h
                exact ⟨this.1.trans hsh.1, this.2.trans hsh.2⟩
        · simp only [Except.ok.injEq, Prod.mk.injEq] at h
          rw [← h.2.1]
          rw [show (st1 : EvalState).scopes = st.scopes from h2]
          exact ⟨rfl, rfl⟩
        · simp only [Except.ok.injEq, Prod.mk.injEq] at h
          rw [← h.2.1]
          rw [show (st1 : EvalState).scopes = st.scopes from h2]
          exact ⟨rfl, rfl⟩

/-- C4: a function call that returns normally restores the scope stack
exactly: no binding created inside the callee survives, and every
variable lookup the caller performs after the call gives the same result
as before it. -/
theorem C4_scope_isolation (fuel : Nat) (name : String) (args : List Node)
    (st : EvalState) (v : Value) (st' : EvalState)
    (h : evalExpr fuel (.exprCall name args) st = .ok (v, st')) :
    st'.scopes = st.scopes ∧ ∀ nm, varGet st' nm = varGet st nm := by
  have hsc : st'.scopes = st.scopes := (eval_scopes_shape fuel).1 _ st v st' h
  refine ⟨hsc, fun nm => ?_⟩
  unfold varGet
  rw [hsc]

/-- C4 witness: a call whose body sets a fresh local `y` and shadows the
global `x` succeeds, and the theorem applied to it shows the caller's
scopes and lookups are untouched. -/
theorem C4_scope_isolation_witness :
    evalExpr 9 (.exprCall "f" [.exprNumber (Q.ofInt 1)])
      ⟨[⟨[("x", .vnum (Q.ofInt 4))]⟩],
        [("f", (["p"], .stmtList [.stmtSet "y" (.exprNumber (Q.ofInt 7)),
          .stmtSet "x" (.exprNumber (Q.ofInt 8))]))], [], []⟩ =
      .ok (.vnum (Q.ofInt 8),
        ⟨[⟨[("x", .vnum (Q.ofInt 4))]⟩],
          [("f", (["p"], .stmtList [.stmtSet "y" (.exprNumber (Q.ofInt 7)),
            .stmtSet "x" (.exprNumber (Q.ofInt 8))]))], [], []⟩) ∧
    ((⟨[⟨[("x", .vnum (Q.ofInt 4))]⟩],
        [("f", (["p"], .stmtList [.stmtSet "y" (.exprNumber (Q.ofInt 7)),
          .stmtSet "x" (.exprNumber (Q.ofInt 8))]))], [], []⟩ : EvalState).scopes =
      (⟨[⟨[("x", .vnum (Q.ofInt 4))]⟩],
        [("f", (["p"], .stmtList [.stmtSet "y" (.exprNumber (Q.ofInt 7)),
          .stmtSet "x" (.exprNumber (Q.ofInt 8))]))], [], []⟩ : EvalState).scopes ∧
      ∀ nm, varGet ⟨[⟨[("x", .vnum (Q.ofInt 4))]⟩],
        [("f", (["p"], .stmtList [.stmtSet "y" (.exprNumber (Q.ofInt 7)),
          .stmtSet "x" (.exprNumber (Q.ofInt 8))]))], [], []⟩ nm =
        varGet ⟨[⟨[("x", .vnum (Q.ofInt 4))]⟩],
          [("f", (["p"], .stmtList [.stmtSet "y" (.exprNumber (Q.ofInt 7)),
            .stmtSet "x" (.exprNumber (Q.ofInt 8))]))], [], []⟩ nm) :=
  ⟨rfl, C4_scope_isolation 9 "f" [.exprNumber (Q.ofInt 1)]
    ⟨[⟨[("x", .vnum (Q.ofInt 4))]⟩],
      [("f", (["p"], .stmtList [.stmtSet "y" (.exprNumber (Q.ofInt 7)),
        .stmtSet "x" (.exprNumber (Q.ofInt 8))]))], [], []⟩
    (.vnum (Q.ofInt 8))
    ⟨[⟨[("x", .vnum (Q.ofInt 4))]⟩],
      [("f", (["p"], .stmtList [.stmtSet "y" (.exprNumber (Q.ofInt 7)),
        .stmtSet "x" (.exprNumber (Q.ofInt 8))]))], [], []⟩ rfl⟩

/-- C9 witness: the amended behaviour at the three one- and two-byte
inputs `"\n"`, `"\r\n"` and `"\r?"`. -/
theorem C9_newline_handling_witness :
    nextToken ⟨['\n'], 0, 1⟩ = some (⟨.T_NEWLINE, none⟩, ⟨['\n'], 1, 2⟩) ∧
    nextToken ⟨['\r', '\n'], 0, 1⟩ = some (⟨.T_NEWLINE, none⟩, ⟨['\r', '\n'], 2, 2⟩) ∧
    nextToken ⟨['\r', '?'], 0, 1⟩ = some (⟨.T_NEWLINE, none⟩, ⟨['\r', '?'], 1, 1⟩) :=
  ⟨(C9_newline_handling ⟨['\n'], 0, 1⟩).1 (by decide),
   (C9_newline_handling ⟨['\r', '\n'], 0, 1⟩).2.1 (by decide) (by decide),
   (C9_newline_handling ⟨['\r', '?'], 0, 1⟩).2.2 (by decide) (by decide)⟩

end EasyLang
